import Mathlib

/-!
# Pick-list scoring and ranking (`pick-list.js`), simulation and histogram (`event-dashboard.js`)

A shallow embedding of the numeric core of the two scripts.  Counters that the code only
ever uses as non-negative integers (`wins`, `losses`, `ties`, `pickOrder`, `rank`, the bin
counts) are naturals.  JavaScript numbers are modelled twice.

* By exact rationals, where rounding does not decide the property: the pick-list scoring,
  filtering and sorting, the simulation of two teams whose ratings are 0, and the histogram
  of equal samples.  Where the code can divide by zero, in the histogram step, the quotient
  is a `JsNumber`, which has `NaN` and the infinities.
* By IEEE 754 binary64 values (namespace `Binary64`), where it does: the summary returned by
  `runMonteCarloSimulation` and the histogram of samples that differ.  A finite value is a
  whole number of steps of `2 ^ (-1074)`; `+`, `-`, `*`, `/` and `Math.sqrt` round the exact
  result to the nearest value with 53 significant bits, ties to even, with gradual
  underflow and overflow to an infinity.

Network access and rendering are outside the model: `loadEvent` starts from the merged
array `teamsWithData`, `applyFiltersAndSort` from the stored `currentPickList` and the
three values it reads from the form, `runMonteCarloSimulation` from the two team records,
the trial count and the sequence of values that `gaussianRandom()` returns, and the
histogram step from the array `allianceScores`.
-/

namespace FtcMatch

/-! ## Data model -/

/-- The `opr` object returned by `fetchTeamStatsFromScout`. -/
structure Opr where
  total : ℚ
  auto : ℚ
  dc : ℚ
deriving DecidableEq

/-- One element of `teamsWithData` as pushed by the merge loop of `loadEvent`
(`rank` is `null` when the ranking is absent). -/
structure Team where
  teamNumber : Int
  opr : Opr
  rank : Option Nat
  wins : Nat
  losses : Nat
  ties : Nat
  rp : ℚ
  consistency : ℚ
deriving DecidableEq

/-- The object built by the first `.map` of `loadEvent`: the team's own fields
(`...team`) plus `pickScore`, `complementaryScore` and `winRate`. -/
structure ScoredTeam extends Team where
  pickScore : ℚ
  complementaryScore : ℚ
  winRate : ℚ
deriving DecidableEq

/-- The object built by the second `.map` of `loadEvent`: `{ ...team, pickOrder: i + 1 }`.
These are the elements of `currentPickList`. -/
structure RankedTeam extends ScoredTeam where
  pickOrder : Nat
deriving DecidableEq

/-- What the code observes of the trimmed text of the `yourTeamNumber` field: whether it
is the empty string (falsy), and otherwise what `parseInt` returns for it (`NaN` or an
integer). -/
inductive YourTeam where
  | empty
  | notANumber
  | number (n : Int)
deriving DecidableEq

/-! ## `Array.prototype.sort` -/

/-- `Array.prototype.sort(compare)`: a stable sort that places `a` before `b` when
`compare(a, b) < 0` and keeps the original order when `compare(a, b) = 0`.  For a
consistent comparator the result of a stable sort is unique; it is computed here by
insertion, an element going in front of the first later element it does not exceed. -/
def jsSort {α : Type} (compare : α → α → ℚ) (xs : List α) : List α :=
  List.insertionSort (fun a b => compare a b ≤ 0) xs

/-! ## `loadEvent` (pick-list.js): scoring -/

/-- The expression `yourTeam ? teamsWithData.find(t => t.teamNumber === parseInt(yourTeam)) : null`. -/
def yourTeamData (teamsWithData : List Team) : YourTeam → Option Team
  | .empty => none
  | .notANumber => none
  | .number n => teamsWithData.find? (fun t => decide (t.teamNumber = n))

/-- The predicate of the `.filter` call: `!yourTeam || team.teamNumber !== parseInt(yourTeam)`.
A comparison with `NaN` by `!==` is always true. -/
def isCandidate (yourTeam : YourTeam) (team : Team) : Bool :=
  match yourTeam with
  | .empty => true
  | .notANumber => true
  | .number n => decide (team.teamNumber ≠ n)

/-- The local `complementaryBonus` of the scoring callback. -/
def complementaryBonus (yourTeamData : Option Team) (team : Team) : ℚ :=
  match yourTeamData with
  | none => 0
  | some y =>
    (if y.opr.auto < 20 ∧ team.opr.auto > 20 then 15 else 0) +
    (if y.opr.dc < 40 ∧ team.opr.dc > 40 then 15 else 0)

/-- The local `consistencyScore`: `Math.max(0, 100 - team.consistency)`. -/
def consistencyScore (team : Team) : ℚ :=
  max 0 (100 - team.consistency)

/-- The local `totalMatches`: `team.wins + team.losses + team.ties`. -/
def totalMatches (team : Team) : Nat :=
  team.wins + team.losses + team.ties

/-- The local `winRate`: `totalMatches > 0 ? (team.wins / totalMatches * 100) : 0`. -/
def winRate (team : Team) : ℚ :=
  if totalMatches team > 0 then (team.wins : ℚ) / (totalMatches team : ℚ) * 100 else 0

/-- The callback of the first `.map` of `loadEvent`. -/
def scoreTeam (yourTeamData : Option Team) (team : Team) : ScoredTeam :=
  { team with
    pickScore :=
      team.opr.total * 0.5 +
      complementaryBonus yourTeamData team * 0.2 +
      consistencyScore team * 0.2 +
      winRate team * 0.1
    complementaryScore := complementaryBonus yourTeamData team
    winRate := winRate team }

/-- The callback of the second `.map` of `loadEvent`, `(team, i) => ({ ...team, pickOrder: i + 1 })`,
applied along a list whose first element has index `i`. -/
def assignPickOrder : Nat → List ScoredTeam → List RankedTeam
  | _, [] => []
  | i, team :: rest => { team with pickOrder := i + 1 } :: assignPickOrder (i + 1) rest

/-- The value `loadEvent` stores in `currentPickList`, from the merged `teamsWithData`
and the text of the `yourTeamNumber` field. -/
def loadEvent (teamsWithData : List Team) (yourTeam : YourTeam) : List RankedTeam :=
  assignPickOrder 0
    (jsSort (fun a b => b.pickScore - a.pickScore)
      ((teamsWithData.filter (isCandidate yourTeam)).map
        (scoreTeam (yourTeamData teamsWithData yourTeam))))

/-! ## `applyFiltersAndSort` (pick-list.js) -/

/-- The callback of `currentPickList.filter(...)` in `applyFiltersAndSort`; `minOPR` is
the value of `parseFloat(...) || 0`, `strengthFilter` the value of the select element. -/
def passesFilters (minOPR : ℚ) (strengthFilter : String) (team : RankedTeam) : Bool :=
  if team.opr.total < minOPR then false
  else if strengthFilter = "auto" ∧ team.opr.auto < 20 then false
  else if strengthFilter = "teleop" ∧ team.opr.dc < 40 then false
  else if strengthFilter = "consistent" ∧ team.consistency > 30 then false
  else true

/-- The expression `x.rank || 999`: `null` and `0` are falsy. -/
def rankOr999 (rank : Option Nat) : ℚ :=
  match rank with
  | none => 999
  | some n => if n = 0 then 999 else (n : ℚ)

/-- The comparator passed to `filtered.sort(...)`: the `switch (sortBy)`. -/
def sortCompare (sortBy : String) (a b : RankedTeam) : ℚ :=
  if sortBy = "opr" then b.opr.total - a.opr.total
  else if sortBy = "consistency" then a.consistency - b.consistency
  else if sortBy = "autoOPR" then b.opr.auto - a.opr.auto
  else if sortBy = "dcOPR" then b.opr.dc - a.opr.dc
  else if sortBy = "winRate" then b.winRate - a.winRate
  else if sortBy = "rank" then rankOr999 a.rank - rankOr999 b.rank
  else b.pickScore - a.pickScore

/-- The array `filtered` after `filtered.sort(...)`.  `filter` copies references, not
objects, so every element is paired with the position in `currentPickList` of the
object it refers to. -/
def filteredSorted (currentPickList : List RankedTeam) (sortBy : String) (minOPR : ℚ)
    (strengthFilter : String) : List (Nat × RankedTeam) :=
  jsSort (fun p q => sortCompare sortBy p.2 q.2)
    (currentPickList.enum.filter (fun p => passesFilters minOPR strengthFilter p.2))

/-- The loop `filtered.forEach((team, i) => { team.pickOrder = i + 1; })`, seen through
`filtered`, along a list whose first element has index `i`. -/
def setPickOrder : Nat → List RankedTeam → List RankedTeam
  | _, [] => []
  | i, team :: rest => { team with pickOrder := i + 1 } :: setPickOrder (i + 1) rest

/-- The list `applyFiltersAndSort` hands to `renderPickList`: `filtered` after the sort
and the `forEach`. -/
def applyFiltersAndSort (currentPickList : List RankedTeam) (sortBy : String) (minOPR : ℚ)
    (strengthFilter : String) : List RankedTeam :=
  setPickOrder 0 ((filteredSorted currentPickList sortBy minOPR strengthFilter).map Prod.snd)

/-- The contents of `currentPickList` once `applyFiltersAndSort` has run: the assignment
`team.pickOrder = i + 1` writes to the object shared with `filtered`, the objects that
did not pass the filter are untouched. -/
def currentPickListAfter (currentPickList : List RankedTeam) (sortBy : String) (minOPR : ℚ)
    (strengthFilter : String) : List RankedTeam :=
  currentPickList.enum.map (fun p =>
    match ((filteredSorted currentPickList sortBy minOPR strengthFilter).map Prod.fst).indexOf? p.1 with
    | some i => { p.2 with pickOrder := i + 1 }
    | none => p.2)

/-! ## `displayTopTeams` (event-dashboard.js) -/

/-- One element of `currentEventTeams` as pushed by the merge loop of `loadEvent` in
event-dashboard.js. -/
structure DashboardTeam where
  teamNumber : Int
  name : String
  opr : Opr
  consistency : ℚ
  rank : Option Nat
  wins : Nat
  losses : Nat
  ties : Nat
  rp : ℚ
deriving DecidableEq

/-- The local `sorted` of `displayTopTeams`:
`[...teams].sort((a, b) => (a.rank || 999) - (b.rank || 999))`. -/
def displayTopTeamsSorted (teams : List DashboardTeam) : List DashboardTeam :=
  jsSort (fun a b => rankOr999 a.rank - rankOr999 b.rank) teams

/-- The local `top10` of `displayTopTeams`, the rows it renders: `sorted.slice(0, 10)`. -/
def displayTopTeams (teams : List DashboardTeam) : List DashboardTeam :=
  (displayTopTeamsSorted teams).take 10

/-! ## `runMonteCarloSimulation` (event-dashboard.js) -/

/-- The object returned by `runMonteCarloSimulation`. -/
structure SimulationResult where
  mean : ℚ
  stdDev : ℚ
  min : ℚ
  max : ℚ
  scores : List ℚ
deriving DecidableEq

/-- The body of the `for` loop of `runMonteCarloSimulation` for trial `i`: the value it
pushes onto `scores`.  The random source is injected: `gaussianRandom k` is the value
returned by the `k`-th call of `gaussianRandom()` in the run, and trial `i` makes the
calls `4 * i`, ..., `4 * i + 3`, in the order of the four `const` declarations. -/
def trialScore (gaussianRandom : Nat → ℚ) (stats1 stats2 : DashboardTeam) (i : Nat) : ℚ :=
  let rand1Auto := gaussianRandom (4 * i) * 0.2
  let rand1DC := gaussianRandom (4 * i + 1) * 0.2
  let rand2Auto := gaussianRandom (4 * i + 2) * 0.2
  let rand2DC := gaussianRandom (4 * i + 3) * 0.2
  let score1 := max 0 (stats1.opr.auto * (1 + rand1Auto) + stats1.opr.dc * (1 + rand1DC))
  let score2 := max 0 (stats2.opr.auto * (1 + rand2Auto) + stats2.opr.dc * (1 + rand2DC))
  score1 + score2

/-- The array `scores` when the `for` loop of `runMonteCarloSimulation` ends. -/
def simulatedScores (gaussianRandom : Nat → ℚ) (stats1 stats2 : DashboardTeam)
    (iterations : Nat) : List ℚ :=
  (List.range iterations).map (trialScore gaussianRandom stats1 stats2)

/-- The function `runMonteCarloSimulation(stats1, stats2, iterations)`.  `Math.sqrt`, a
library function, is the parameter `mathSqrt`.  With `iterations = 0` the JavaScript
result has an empty `scores`, `NaN` for `mean` and `stdDev` and infinite `min` and
`max`, none of them a rational: that result is `none`. -/
def runMonteCarloSimulation (mathSqrt : ℚ → ℚ) (gaussianRandom : Nat → ℚ)
    (stats1 stats2 : DashboardTeam) (iterations : Nat) : Option SimulationResult :=
  match simulatedScores gaussianRandom stats1 stats2 iterations with
  | [] => none
  | first :: rest =>
    let scores := first :: rest
    let mean := scores.foldl (fun a b => a + b) 0 / (iterations : ℚ)
    let variance :=
      scores.foldl (fun sum val => sum + (val - mean) ^ 2) 0 / (iterations : ℚ)
    let stdDev := mathSqrt variance
    some
      { mean := mean
        stdDev := stdDev
        min := rest.foldl min first
        max := rest.foldl max first
        scores := scores }

/-! ## The histogram of `renderEventScoresChart` (event-dashboard.js) -/

/-- A JavaScript number as the histogram step can produce one from finite samples: a
finite value, `NaN`, or an infinity. -/
inductive JsNumber where
  | finite (q : ℚ)
  | nan
  | posInfinity
  | negInfinity
deriving DecidableEq

/-- The quotient `a / b` of two finite numbers: a division by zero gives `NaN` for `0 / 0`
and an infinity with the sign of `a` otherwise (the zero divisor of the histogram step,
`(max - min) / binCount` with `max = min`, is `+0`). -/
def jsDiv (a b : ℚ) : JsNumber :=
  if b ≠ 0 then JsNumber.finite (a / b)
  else if a = 0 then JsNumber.nan
  else if 0 < a then JsNumber.posInfinity
  else JsNumber.negInfinity

/-- `Math.floor(x)`: `NaN` and the infinities are returned unchanged. -/
def mathFloor : JsNumber → JsNumber
  | JsNumber.finite q => JsNumber.finite ((⌊q⌋ : ℤ) : ℚ)
  | JsNumber.nan => JsNumber.nan
  | JsNumber.posInfinity => JsNumber.posInfinity
  | JsNumber.negInfinity => JsNumber.negInfinity

/-- `Math.min(x, k)` for a finite `k`: `NaN` when `x` is `NaN`. -/
def mathMin (x : JsNumber) (k : ℚ) : JsNumber :=
  match x with
  | JsNumber.finite q => JsNumber.finite (min q k)
  | JsNumber.nan => JsNumber.nan
  | JsNumber.posInfinity => JsNumber.finite k
  | JsNumber.negInfinity => JsNumber.negInfinity

/-- The array `bins` with element `i` incremented (unchanged when there is no such element). -/
def incrementAt : List Nat → Nat → List Nat
  | [], _ => []
  | b :: bs, 0 => (b + 1) :: bs
  | b :: bs, i + 1 => b :: incrementAt bs i

/-- The statement `bins[binIndex]++` as it acts on the elements of `bins`: an element is
incremented when `binIndex` is a non-negative integer below the length; for `NaN`, an
infinity, a negative or a fractional number the write goes to a property that is not an
element, and the elements are unchanged.  (An integer at or beyond the length, which
would grow the array, does not arise: `binIndex` is clamped to `binCount - 1`.) -/
def incrementBin (bins : List Nat) (binIndex : JsNumber) : List Nat :=
  match binIndex with
  | JsNumber.finite q =>
    if q = ((q.num.toNat : ℕ) : ℚ) ∧ q.num.toNat < bins.length then
      incrementAt bins q.num.toNat
    else bins
  | _ => bins

/-- The constant `binCount` of `renderEventScoresChart`. -/
def binCount : Nat := 20

/-- The local `binIndex` of the `forEach` callback:
`Math.min(Math.floor((score - min) / binWidth), binCount - 1)`. -/
def binIndex (min binWidth score : ℚ) : JsNumber :=
  mathMin (mathFloor (jsDiv (score - min) binWidth)) ((binCount : ℚ) - 1)

/-- The array `bins` of `renderEventScoresChart` after the `forEach` over
`allianceScores`.  For an empty `allianceScores` the callback never runs. -/
def histogramBins (allianceScores : List ℚ) : List Nat :=
  match allianceScores with
  | [] => List.replicate binCount 0
  | first :: rest =>
    let min := rest.foldl Min.min first
    let max := rest.foldl Max.max first
    let binWidth := (max - min) / (binCount : ℚ)
    (first :: rest).foldl (fun bins score => incrementBin bins (binIndex min binWidth score))
      (List.replicate binCount 0)

/-! ## IEEE 754 binary64 arithmetic -/

namespace Binary64

/-- The number of steps of `2 ^ (-1074)`, the spacing of the smallest binary64 values, that
make up 1: every finite binary64 value is a whole number of such steps. -/
def stepsPerOne : ℕ := 2 ^ 1074

/-- A binary64 value as JavaScript sees it: `finite k` is the number `k * 2 ^ (-1074)`, and
the two zeros are the one value `finite 0`. -/
inductive F64 where
  | finite (k : ℤ)
  | nan
  | posInfinity
  | negInfinity
deriving DecidableEq

/-- The number of low bits of `q` that 53 significant bits cannot hold: the least `s` with
`q < 2 ^ (53 + s)`, found bit by bit from the top (up to 8191, beyond any finite value). -/
def shiftFor (q : ℕ) : ℕ :=
  [4096, 2048, 1024, 512, 256, 128, 64, 32, 16, 8, 4, 2, 1].foldl
    (fun acc k => if 2 ^ (53 + (acc + k - 1)) ≤ q then acc + k else acc) 0

/-- The quotient `n / d`, a count of steps, rounded to the nearest count that has at most 53
significant bits, a tie going to the even significand. -/
def roundNat (n d : ℕ) : ℕ :=
  let q := n / d
  let s := shiftFor q
  let lo := q / 2 ^ s * 2 ^ s
  let twiceRest := 2 * (n - lo * d)
  let gap := 2 ^ s * d
  if twiceRest < gap then lo
  else if gap < twiceRest then lo + 2 ^ s
  else if q / 2 ^ s % 2 = 0 then lo else lo + 2 ^ s

/-- The infinity of the given sign. -/
def infinity (negative : Bool) : F64 :=
  if negative then F64.negInfinity else F64.posInfinity

/-- The binary64 value nearest to `n / d` steps, with the given sign; a magnitude that
rounds to `2 ^ 1024` or more is an infinity. -/
def ofRatio (negative : Bool) (n d : ℕ) : F64 :=
  if 2 ^ 2098 ≤ roundNat n d then infinity negative
  else F64.finite (if negative then -(roundNat n d : ℤ) else (roundNat n d : ℤ))

/-- The binary64 value of a decimal numeral or of a number in JSON: the nearest one. -/
def ofRat (q : ℚ) : F64 :=
  ofRatio (decide (q.num < 0)) (q.num.natAbs * stepsPerOne) q.den

/-- The binary64 value of a natural number. -/
def ofNat (n : ℕ) : F64 :=
  ofRatio false (n * stepsPerOne) 1

/-- The binary64 value nearest to `k` steps. -/
def ofSteps (k : ℤ) : F64 :=
  ofRatio (decide (k < 0)) k.natAbs 1

/-- Unary minus. -/
def neg : F64 → F64
  | F64.finite k => F64.finite (-k)
  | F64.nan => F64.nan
  | F64.posInfinity => F64.negInfinity
  | F64.negInfinity => F64.posInfinity

/-- The operator `+`. -/
def add : F64 → F64 → F64
  | F64.finite a, F64.finite b => ofSteps (a + b)
  | F64.finite _, F64.nan => F64.nan
  | F64.finite _, F64.posInfinity => F64.posInfinity
  | F64.finite _, F64.negInfinity => F64.negInfinity
  | F64.nan, _ => F64.nan
  | F64.posInfinity, F64.finite _ => F64.posInfinity
  | F64.posInfinity, F64.nan => F64.nan
  | F64.posInfinity, F64.posInfinity => F64.posInfinity
  | F64.posInfinity, F64.negInfinity => F64.nan
  | F64.negInfinity, F64.finite _ => F64.negInfinity
  | F64.negInfinity, F64.nan => F64.nan
  | F64.negInfinity, F64.posInfinity => F64.nan
  | F64.negInfinity, F64.negInfinity => F64.negInfinity

/-- The operator `-`. -/
def sub (a b : F64) : F64 :=
  add a (neg b)

/-- The operator `*`. -/
def mul : F64 → F64 → F64
  | F64.finite a, F64.finite b =>
    ofRatio (decide ((a < 0) ≠ (b < 0))) (a.natAbs * b.natAbs) stepsPerOne
  | F64.finite _, F64.nan => F64.nan
  | F64.finite a, F64.posInfinity => if a = 0 then F64.nan else infinity (decide (a < 0))
  | F64.finite a, F64.negInfinity => if a = 0 then F64.nan else infinity (decide (0 < a))
  | F64.nan, _ => F64.nan
  | F64.posInfinity, F64.finite b => if b = 0 then F64.nan else infinity (decide (b < 0))
  | F64.posInfinity, F64.nan => F64.nan
  | F64.posInfinity, F64.posInfinity => F64.posInfinity
  | F64.posInfinity, F64.negInfinity => F64.negInfinity
  | F64.negInfinity, F64.finite b => if b = 0 then F64.nan else infinity (decide (0 < b))
  | F64.negInfinity, F64.nan => F64.nan
  | F64.negInfinity, F64.posInfinity => F64.negInfinity
  | F64.negInfinity, F64.negInfinity => F64.posInfinity

/-- The operator `/`.  A zero divisor is taken to be `+0`, which it is wherever the two
functions modelled here divide. -/
def div : F64 → F64 → F64
  | F64.finite a, F64.finite b =>
    if b = 0 then (if a = 0 then F64.nan else infinity (decide (a < 0)))
    else ofRatio (decide ((a < 0) ≠ (b < 0))) (a.natAbs * stepsPerOne) b.natAbs
  | F64.finite _, F64.nan => F64.nan
  | F64.finite _, F64.posInfinity => F64.finite 0
  | F64.finite _, F64.negInfinity => F64.finite 0
  | F64.nan, _ => F64.nan
  | F64.posInfinity, F64.finite b => infinity (decide (b < 0))
  | F64.posInfinity, _ => F64.nan
  | F64.negInfinity, F64.finite b => infinity (decide (0 ≤ b))
  | F64.negInfinity, _ => F64.nan

/-- The integer square root of a number below `2 ^ 128`, found bit by bit from bit 63
down. -/
def natSqrt (n : ℕ) : ℕ :=
  (List.range 64).foldr (fun i r => if (r + 2 ^ i) ^ 2 ≤ n then r + 2 ^ i else r) 0

/-- The square root of `n`, rounded to the nearest number with at most 53 significant
bits, a tie going to the even significand.  The leading bits of the root are those of the
root of `n / 4 ^ t`, which is below `2 ^ 107`; the rounding compares `n` itself with the
square of the midpoint. -/
def roundSqrt (n : ℕ) : ℕ :=
  let t := (shiftFor n - 53) / 2
  let r := natSqrt (n / 4 ^ t)
  let s := shiftFor r
  let lo := r / 2 ^ s * 2 ^ s
  let mid := (2 * lo + 2 ^ s) ^ 2 * 4 ^ t
  if 4 * n < mid then lo * 2 ^ t
  else if mid < 4 * n then (lo + 2 ^ s) * 2 ^ t
  else if r / 2 ^ s % 2 = 0 then lo * 2 ^ t else (lo + 2 ^ s) * 2 ^ t

/-- The function `Math.sqrt`: the correctly rounded square root.  The root of `k` steps is
the root of `k * stepsPerOne`, counted in steps. -/
def sqrt : F64 → F64
  | F64.finite k => if k < 0 then F64.nan else F64.finite (roundSqrt (k.toNat * stepsPerOne))
  | F64.nan => F64.nan
  | F64.posInfinity => F64.posInfinity
  | F64.negInfinity => F64.nan

/-- The function `Math.floor`. -/
def floor : F64 → F64
  | F64.finite k => F64.finite (k / (stepsPerOne : ℤ) * (stepsPerOne : ℤ))
  | F64.nan => F64.nan
  | F64.posInfinity => F64.posInfinity
  | F64.negInfinity => F64.negInfinity

/-- The comparison `a <= b`, false when either side is `NaN`. -/
def ble : F64 → F64 → Bool
  | F64.finite a, F64.finite b => decide (a ≤ b)
  | F64.finite _, F64.posInfinity => true
  | F64.negInfinity, F64.finite _ => true
  | F64.negInfinity, F64.negInfinity => true
  | F64.negInfinity, F64.posInfinity => true
  | F64.posInfinity, F64.posInfinity => true
  | _, _ => false

/-- The function `Math.min` of two arguments: `NaN` when either is `NaN`. -/
def mathMin (a b : F64) : F64 :=
  if a = F64.nan ∨ b = F64.nan then F64.nan else if ble a b then a else b

/-- The function `Math.max` of two arguments: `NaN` when either is `NaN`. -/
def mathMax (a b : F64) : F64 :=
  if a = F64.nan ∨ b = F64.nan then F64.nan else if ble a b then b else a

/-- The function `Number.isFinite`: neither `NaN` nor an infinity. -/
def isFinite : F64 → Bool
  | F64.finite _ => true
  | _ => false

/-- The comparison `0 <= x`. -/
def nonneg (x : F64) : Bool :=
  ble (F64.finite 0) x

/-! ## `runMonteCarloSimulation` and the histogram step in binary64 arithmetic -/

/-- The object returned by `runMonteCarloSimulation`, its numbers binary64 values. -/
structure SimulationResult where
  mean : F64
  stdDev : F64
  min : F64
  max : F64
  scores : List F64
deriving DecidableEq

/-- The body of the `for` loop of `runMonteCarloSimulation` for trial `i`, every operation
rounded as JavaScript rounds it.  The ratings and the values returned by
`gaussianRandom()` are read as the binary64 values nearest to them. -/
def trialScore (gaussianRandom : Nat → ℚ) (stats1 stats2 : DashboardTeam) (i : Nat) : F64 :=
  let rand1Auto := mul (ofRat (gaussianRandom (4 * i))) (ofRat 0.2)
  let rand1DC := mul (ofRat (gaussianRandom (4 * i + 1))) (ofRat 0.2)
  let rand2Auto := mul (ofRat (gaussianRandom (4 * i + 2))) (ofRat 0.2)
  let rand2DC := mul (ofRat (gaussianRandom (4 * i + 3))) (ofRat 0.2)
  let score1 := mathMax (ofNat 0)
    (add (mul (ofRat stats1.opr.auto) (add (ofNat 1) rand1Auto))
      (mul (ofRat stats1.opr.dc) (add (ofNat 1) rand1DC)))
  let score2 := mathMax (ofNat 0)
    (add (mul (ofRat stats2.opr.auto) (add (ofNat 1) rand2Auto))
      (mul (ofRat stats2.opr.dc) (add (ofNat 1) rand2DC)))
  add score1 score2

/-- The array `scores` when the `for` loop of `runMonteCarloSimulation` ends. -/
def simulatedScores (gaussianRandom : Nat → ℚ) (stats1 stats2 : DashboardTeam)
    (iterations : Nat) : List F64 :=
  (List.range iterations).map (trialScore gaussianRandom stats1 stats2)

/-- The function `runMonteCarloSimulation(stats1, stats2, iterations)` in binary64
arithmetic.  `Math.pow`, which the language leaves implementation-approximated, is the
parameter `mathPow`. -/
def runMonteCarloSimulation (mathPow : F64 → F64 → F64) (gaussianRandom : Nat → ℚ)
    (stats1 stats2 : DashboardTeam) (iterations : Nat) : SimulationResult :=
  let scores := simulatedScores gaussianRandom stats1 stats2 iterations
  let mean := div (scores.foldl (fun a b => add a b) (ofNat 0)) (ofNat iterations)
  let variance :=
    div (scores.foldl (fun sum val => add sum (mathPow (sub val mean) (ofNat 2))) (ofNat 0))
      (ofNat iterations)
  let stdDev := sqrt variance
  { mean := mean
    stdDev := stdDev
    min := scores.foldl mathMin F64.posInfinity
    max := scores.foldl mathMax F64.negInfinity
    scores := scores }

/-- The local `binIndex` of the `forEach` callback of `renderEventScoresChart`:
`Math.min(Math.floor((score - min) / binWidth), binCount - 1)`. -/
def binIndex (min binWidth score : F64) : F64 :=
  mathMin (floor (div (sub score min) binWidth)) (sub (ofNat binCount) (ofNat 1))

/-- The statement `bins[binIndex]++` as it acts on the elements of `bins`: an element is
incremented when `binIndex` is a non-negative whole number below the length; for `NaN`,
an infinity, a negative or a fractional number no element changes.  (A whole number at or
above the length does not arise: `binIndex` is `NaN` or at most `binCount - 1`.) -/
def incrementBin (bins : List Nat) (binIndex : F64) : List Nat :=
  match binIndex with
  | F64.finite k =>
    if 0 ≤ k ∧ k % (stepsPerOne : ℤ) = 0 ∧ (k / (stepsPerOne : ℤ)).toNat < bins.length then
      incrementAt bins (k / (stepsPerOne : ℤ)).toNat
    else bins
  | _ => bins

/-- The array `bins` of `renderEventScoresChart` after the `forEach` over `allianceScores`,
in binary64 arithmetic. -/
def histogramBins (allianceScores : List F64) : List Nat :=
  let min := allianceScores.foldl mathMin F64.posInfinity
  let max := allianceScores.foldl mathMax F64.negInfinity
  let binWidth := div (sub max min) (ofNat binCount)
  allianceScores.foldl (fun bins score => incrementBin bins (binIndex min binWidth score))
    (List.replicate binCount 0)

end Binary64

/-! ## Concrete inputs -/

/-- The stored pick list of an event with the single team 101, whose `opr.auto` is 20 and
whose `opr.dc` is 40. -/
def boundaryPickList : List RankedTeam :=
  loadEvent [⟨101, ⟨60, 20, 40⟩, some 5, 3, 2, 0, 0, 15⟩] YourTeam.empty

/-- The stored pick list of an event with team 11 (no rank yet) and team 12 (rank 1000). -/
def highRankPickList : List RankedTeam :=
  loadEvent [⟨11, ⟨50, 20, 30⟩, none, 0, 0, 0, 0, 15⟩,
    ⟨12, ⟨40, 15, 25⟩, some 1000, 0, 0, 0, 0, 15⟩] YourTeam.empty

/-- The rows of an event dashboard with team 11 (no rank yet) and team 12 (rank 1000). -/
def highRankDashboard : List DashboardTeam :=
  [⟨11, "A", ⟨50, 20, 30⟩, 15, none, 0, 0, 0, 0⟩,
    ⟨12, "B", ⟨40, 15, 25⟩, 15, some 1000, 0, 0, 0, 0⟩]

/-- A stand-in for `Math.sqrt` on rationals, exact on quotients of perfect squares. -/
def sqrtOfSquares (x : ℚ) : ℚ :=
  (Nat.sqrt x.num.toNat : ℚ) / (Nat.sqrt x.den : ℚ)

/-- A dashboard team whose phase ratings are both 0. -/
def zeroOprTeam : DashboardTeam := ⟨21, "Z", ⟨0, 0, 0⟩, 15, none, 0, 0, 0, 0⟩

/-- The stored pick list of an event with teams 31, 32 and 33, of which only team 32 has
`opr.dc` of at least 40; `loadEvent` stores them in the order 33, 32, 31. -/
def threeTeamPickList : List RankedTeam :=
  loadEvent [⟨31, ⟨30, 5, 10⟩, none, 0, 0, 0, 0, 15⟩,
    ⟨32, ⟨60, 25, 45⟩, none, 0, 0, 0, 0, 15⟩,
    ⟨33, ⟨90, 25, 30⟩, none, 0, 0, 0, 0, 15⟩] YourTeam.empty

/-- A stand-in for `Math.pow(x, 2)` in binary64 arithmetic: the rounded product `x * x`. -/
def squareRounded (x _y : Binary64.F64) : Binary64.F64 :=
  Binary64.mul x x

/-- A dashboard team with `opr.auto = 1` and `opr.dc = 10`. -/
def roundingTeam : DashboardTeam := ⟨23, "R", ⟨11, 1, 10⟩, 15, none, 0, 0, 0, 0⟩

/-- A dashboard team with `opr.auto = 10` and `opr.dc = 0`. -/
def autoOnlyTeam : DashboardTeam := ⟨24, "T", ⟨10, 10, 0⟩, 15, none, 0, 0, 0, 0⟩

/-- A dashboard team with `opr.auto = 0.1` and `opr.dc = 0`. -/
def tenthTeam : DashboardTeam := ⟨25, "U", ⟨0.1, 0.1, 0⟩, 15, none, 0, 0, 0, 0⟩

/-- A dashboard team with `opr.auto = 1e308` and `opr.dc = 1e308`. -/
def hugeTeam : DashboardTeam := ⟨26, "H", ⟨1e308, 1e308, 1e308⟩, 15, none, 0, 0, 0, 0⟩

/-! ## Auxiliary facts -/

theorem mem_jsSort {α : Type} (compare : α → α → ℚ) (xs : List α) (x : α) :
    x ∈ jsSort compare xs ↔ x ∈ xs := by
  unfold jsSort
  exact (List.perm_insertionSort _ xs).mem_iff

theorem jsSort_perm {α : Type} (compare : α → α → ℚ) (xs : List α) :
    (jsSort compare xs).Perm xs := by
  unfold jsSort
  exact List.perm_insertionSort _ xs

theorem map_toScoredTeam_assignPickOrder (l : List ScoredTeam) :
    ∀ i, (assignPickOrder i l).map RankedTeam.toScoredTeam = l := by
  induction l with
  | nil => intro i; rfl
  | cons t rest ih => intro i; simp [assignPickOrder, ih]

theorem map_pickOrder_assignPickOrder (l : List ScoredTeam) :
    ∀ i, (assignPickOrder i l).map RankedTeam.pickOrder = List.range' (i + 1) l.length := by
  induction l with
  | nil => intro i; rfl
  | cons t rest ih => intro i; simp [assignPickOrder, ih, List.range'_succ]

/-- Every record of the pick list is the scored form of a candidate of `teamsWithData`. -/
theorem mem_loadEvent {teamsWithData : List Team} {yourTeam : YourTeam} {r : RankedTeam}
    (h : r ∈ loadEvent teamsWithData yourTeam) :
    ∃ t ∈ teamsWithData, isCandidate yourTeam t = true ∧
      r.toScoredTeam = scoreTeam (yourTeamData teamsWithData yourTeam) t := by
  have h1 : r.toScoredTeam ∈ (loadEvent teamsWithData yourTeam).map RankedTeam.toScoredTeam :=
    List.mem_map_of_mem _ h
  rw [loadEvent, map_toScoredTeam_assignPickOrder, mem_jsSort, List.mem_map] at h1
  obtain ⟨t, ht, hr⟩ := h1
  rw [List.mem_filter] at ht
  exact ⟨t, ht.1, ht.2, hr.symm⟩

theorem jsSort_pairwise {α : Type} (compare : α → α → ℚ) (key : α → ℚ)
    (h : ∀ a b, compare a b ≤ 0 ↔ key a ≤ key b) (xs : List α) :
    (jsSort compare xs).Pairwise (fun a b => key a ≤ key b) := by
  unfold jsSort
  haveI : IsTotal α (fun a b => compare a b ≤ 0) :=
    ⟨fun a b => by simp only [h]; exact le_total _ _⟩
  haveI : IsTrans α (fun a b => compare a b ≤ 0) :=
    ⟨fun a b c hab hbc => by simp only [h] at *; exact le_trans hab hbc⟩
  exact (List.sorted_insertionSort _ xs).imp (fun hab => (h _ _).mp hab)

theorem map_toScoredTeam_setPickOrder (l : List RankedTeam) :
    ∀ i, (setPickOrder i l).map RankedTeam.toScoredTeam = l.map RankedTeam.toScoredTeam := by
  induction l with
  | nil => intro i; rfl
  | cons t rest ih => intro i; simp [setPickOrder, ih]

theorem map_pickOrder_setPickOrder (l : List RankedTeam) :
    ∀ i, (setPickOrder i l).map RankedTeam.pickOrder = List.range' (i + 1) l.length := by
  induction l with
  | nil => intro i; rfl
  | cons t rest ih => intro i; simp [setPickOrder, ih, List.range'_succ]

/-- The objects of `filtered` are, up to order, the stored objects that pass the filter. -/
theorem filteredSorted_perm (currentPickList : List RankedTeam) (sortBy : String) (minOPR : ℚ)
    (strengthFilter : String) :
    ((filteredSorted currentPickList sortBy minOPR strengthFilter).map Prod.snd).Perm
      (currentPickList.filter (passesFilters minOPR strengthFilter)) := by
  have h1 : currentPickList.filter (passesFilters minOPR strengthFilter) =
      (currentPickList.enum.filter
        (fun p => passesFilters minOPR strengthFilter p.2)).map Prod.snd := by
    conv_lhs => rw [← List.enum_map_snd currentPickList]
    rw [List.filter_map]
    rfl
  rw [h1]
  exact (jsSort_perm _ _).map Prod.snd

/-- The rendered list and the stored objects that pass the filter agree, up to order and
up to `pickOrder`. -/
theorem applyFiltersAndSort_perm (currentPickList : List RankedTeam) (sortBy : String)
    (minOPR : ℚ) (strengthFilter : String) :
    ((applyFiltersAndSort currentPickList sortBy minOPR strengthFilter).map
        RankedTeam.toScoredTeam).Perm
      ((currentPickList.filter (passesFilters minOPR strengthFilter)).map
        RankedTeam.toScoredTeam) := by
  unfold applyFiltersAndSort
  rw [map_toScoredTeam_setPickOrder]
  exact (filteredSorted_perm currentPickList sortBy minOPR strengthFilter).map _

/-- Every rendered record is a stored record that passed the filter, up to `pickOrder`. -/
theorem mem_applyFiltersAndSort {currentPickList : List RankedTeam} {sortBy : String}
    {minOPR : ℚ} {strengthFilter : String} {r : RankedTeam}
    (h : r ∈ applyFiltersAndSort currentPickList sortBy minOPR strengthFilter) :
    ∃ t ∈ currentPickList, passesFilters minOPR strengthFilter t = true ∧
      r.toScoredTeam = t.toScoredTeam := by
  have h1 : r.toScoredTeam ∈ (applyFiltersAndSort currentPickList sortBy minOPR
      strengthFilter).map RankedTeam.toScoredTeam := List.mem_map_of_mem _ h
  rw [(applyFiltersAndSort_perm currentPickList sortBy minOPR strengthFilter).mem_iff,
    List.mem_map] at h1
  obtain ⟨t, ht, hr⟩ := h1
  rw [List.mem_filter] at ht
  exact ⟨t, ht.1, ht.2, hr.symm⟩

/-! ## C1: the composite score -/

/-- C1: the `pickScore` attached by the scoring step of `loadEvent` is
`0.5*opr.total + 0.2*complementaryScore + 0.2*max(0, 100 - consistency) + 0.1*winRate`,
with `complementaryScore` and `winRate` the values stored on the same record; this holds
for the scoring callback with any (possibly absent) reference team and for every record
of the pick list that `loadEvent` builds. -/
theorem pickScore_eq_weighted_sum :
    (∀ (ref : Option Team) (team : Team),
      (scoreTeam ref team).pickScore =
        0.5 * (scoreTeam ref team).opr.total + 0.2 * (scoreTeam ref team).complementaryScore +
          0.2 * max 0 (100 - (scoreTeam ref team).consistency) +
          0.1 * (scoreTeam ref team).winRate) ∧
    (∀ (teamsWithData : List Team) (yourTeam : YourTeam),
      ∀ r ∈ loadEvent teamsWithData yourTeam,
        r.pickScore =
          0.5 * r.opr.total + 0.2 * r.complementaryScore + 0.2 * max 0 (100 - r.consistency) +
            0.1 * r.winRate) := by
  have key : ∀ (ref : Option Team) (team : Team),
      (scoreTeam ref team).pickScore =
        0.5 * (scoreTeam ref team).opr.total + 0.2 * (scoreTeam ref team).complementaryScore +
          0.2 * max 0 (100 - (scoreTeam ref team).consistency) +
          0.1 * (scoreTeam ref team).winRate := by
    intro ref team
    simp only [scoreTeam, consistencyScore]
    ring
  refine ⟨key, ?_⟩
  intro teamsWithData yourTeam r hr
  obtain ⟨t, -, -, hrt⟩ := mem_loadEvent hr
  have := key (yourTeamData teamsWithData yourTeam) t
  rw [← hrt] at this
  exact this

/-! ## C2: the complementary bonus -/

/-- C2: with a reference team, `complementaryScore` is
`15*[ref.opr.auto < 20 and cand.opr.auto > 20] + 15*[ref.opr.dc < 40 and cand.opr.dc > 40]`,
hence one of 0, 15, 30; with no reference team it is 0; for a candidate with auto 25 and
dc 45 and a reference with auto 5 and dc 10 it is 30; and every record of the pick list
built by `loadEvent` carries the bonus computed against `yourTeamData`. -/
theorem complementaryScore_spec :
    (∀ (ref cand : Team),
      (scoreTeam (some ref) cand).complementaryScore =
        15 * (if ref.opr.auto < 20 ∧ cand.opr.auto > 20 then 1 else 0) +
          15 * (if ref.opr.dc < 40 ∧ cand.opr.dc > 40 then 1 else 0)) ∧
    (∀ (ref : Option Team) (cand : Team),
      (scoreTeam ref cand).complementaryScore = 0 ∨
        (scoreTeam ref cand).complementaryScore = 15 ∨
        (scoreTeam ref cand).complementaryScore = 30) ∧
    (∀ cand : Team, (scoreTeam none cand).complementaryScore = 0) ∧
    (∀ (ref cand : Team), cand.opr.auto = 25 → cand.opr.dc = 45 → ref.opr.auto = 5 →
      ref.opr.dc = 10 → (scoreTeam (some ref) cand).complementaryScore = 30) ∧
    (∀ (teamsWithData : List Team) (yourTeam : YourTeam),
      ∀ r ∈ loadEvent teamsWithData yourTeam,
        r.complementaryScore =
          complementaryBonus (yourTeamData teamsWithData yourTeam) r.toTeam ∧
        (yourTeamData teamsWithData yourTeam = none → r.complementaryScore = 0)) := by
  refine ⟨?_, ?_, ?_, ?_, ?_⟩
  · intro ref cand
    simp only [scoreTeam, complementaryBonus]
    split_ifs <;> norm_num
  · intro ref cand
    cases ref with
    | none => left; rfl
    | some y =>
      simp only [scoreTeam, complementaryBonus]
      split_ifs <;> norm_num
  · intro cand; rfl
  · intro ref cand h1 h2 h3 h4
    simp only [scoreTeam, complementaryBonus, h1, h2, h3, h4]
    norm_num
  · intro teamsWithData yourTeam r hr
    obtain ⟨t, -, -, hrt⟩ := mem_loadEvent hr
    have h1 : r.complementaryScore = (scoreTeam (yourTeamData teamsWithData yourTeam) t).complementaryScore := by
      rw [← hrt]
    have h2 : r.toTeam = t := by
      have : r.toTeam = (scoreTeam (yourTeamData teamsWithData yourTeam) t).toTeam := by rw [← hrt]
      rw [this]; rfl
    refine ⟨by rw [h1, h2]; rfl, ?_⟩
    intro hn
    rw [h1, hn]; rfl

/-- C2, at a concrete input: the scenario of the specification, and a list with no
reference team. -/
theorem complementaryScore_spec_witness :
    (scoreTeam (some ⟨1, ⟨30, 5, 10⟩, none, 0, 0, 0, 0, 15⟩)
      ⟨2, ⟨60, 25, 45⟩, some 3, 2, 1, 1, 0, 15⟩).complementaryScore = 30 :=
  complementaryScore_spec.2.2.2.1 ⟨1, ⟨30, 5, 10⟩, none, 0, 0, 0, 0, 15⟩
    ⟨2, ⟨60, 25, 45⟩, some 3, 2, 1, 1, 0, 15⟩ rfl rfl rfl rfl

/-! ## C3: the win rate -/

theorem winRate_nonneg (team : Team) : 0 ≤ winRate team := by
  unfold winRate
  split_ifs
  · positivity
  · exact le_refl 0

theorem winRate_le_hundred (team : Team) : winRate team ≤ 100 := by
  unfold winRate
  split_ifs with h
  · have hpos : (0 : ℚ) < (totalMatches team : ℚ) := by exact_mod_cast h
    have hle : (team.wins : ℚ) ≤ (totalMatches team : ℚ) := by
      have : team.wins ≤ totalMatches team := by unfold totalMatches; omega
      exact_mod_cast this
    have hdiv : (team.wins : ℚ) / (totalMatches team : ℚ) ≤ 1 := (div_le_one hpos).mpr hle
    linarith
  · norm_num

/-- C3: the `winRate` stored by the scoring step is 0 when `wins + losses + ties = 0`
(the guarded branch, no quotient is formed), is `wins / (wins + losses + ties) * 100`
otherwise, and lies between 0 and 100 in both cases. -/
theorem winRate_spec (ref : Option Team) (team : Team) :
    (team.wins + team.losses + team.ties = 0 → (scoreTeam ref team).winRate = 0) ∧
    (team.wins + team.losses + team.ties ≠ 0 →
      (scoreTeam ref team).winRate =
        (team.wins : ℚ) / ((team.wins : ℚ) + (team.losses : ℚ) + (team.ties : ℚ)) * 100) ∧
    0 ≤ (scoreTeam ref team).winRate ∧ (scoreTeam ref team).winRate ≤ 100 := by
  refine ⟨?_, ?_, winRate_nonneg team, winRate_le_hundred team⟩
  · intro h
    show winRate team = 0
    unfold winRate totalMatches
    rw [if_neg (by omega)]
  · intro h
    show winRate team = _
    unfold winRate totalMatches
    rw [if_pos (by omega)]
    push_cast
    rfl

/-- C3, at concrete inputs: a team that has played no match, and one with a 2-1-1 record. -/
theorem winRate_spec_witness :
    (scoreTeam none ⟨1, ⟨30, 5, 10⟩, none, 0, 0, 0, 0, 15⟩).winRate = 0 ∧
    (scoreTeam none ⟨2, ⟨60, 25, 45⟩, some 3, 2, 1, 1, 0, 15⟩).winRate =
      ((2 : ℕ) : ℚ) / (((2 : ℕ) : ℚ) + ((1 : ℕ) : ℚ) + ((1 : ℕ) : ℚ)) * 100 :=
  ⟨(winRate_spec none ⟨1, ⟨30, 5, 10⟩, none, 0, 0, 0, 0, 15⟩).1 (by decide),
   (winRate_spec none ⟨2, ⟨60, 25, 45⟩, some 3, 2, 1, 1, 0, 15⟩).2.1 (by decide)⟩

/-! ## C4: monotonicity of the composite score -/

/-- C4: with every other input of the scoring step fixed, `pickScore` does not decrease
when `opr.total` is raised, when the record (`wins`, `losses`, `ties`) is replaced by one
with a `winRate` at least as high, or when `consistency` is lowered (whatever its value,
above 100 included). -/
theorem pickScore_monotone (ref : Option Team) (team : Team) :
    (∀ total' : ℚ, team.opr.total ≤ total' →
      (scoreTeam ref team).pickScore ≤
        (scoreTeam ref { team with opr := { team.opr with total := total' } }).pickScore) ∧
    (∀ wins' losses' ties' : Nat,
      (scoreTeam ref team).winRate ≤
        (scoreTeam ref { team with wins := wins', losses := losses', ties := ties' }).winRate →
      (scoreTeam ref team).pickScore ≤
        (scoreTeam ref { team with wins := wins', losses := losses', ties := ties' }).pickScore) ∧
    (∀ consistency' : ℚ, consistency' ≤ team.consistency →
      (scoreTeam ref team).pickScore ≤
        (scoreTeam ref { team with consistency := consistency' }).pickScore) := by
  refine ⟨?_, ?_, ?_⟩
  · intro total' h
    have hb : complementaryBonus ref { team with opr := { team.opr with total := total' } } =
        complementaryBonus ref team := by cases ref <;> rfl
    have hw : winRate { team with opr := { team.opr with total := total' } } = winRate team := rfl
    have hc : consistencyScore { team with opr := { team.opr with total := total' } } =
        consistencyScore team := rfl
    simp only [scoreTeam, hb, hw, hc]
    norm_num
    linarith
  · intro wins' losses' ties' h
    have hb : complementaryBonus ref { team with wins := wins', losses := losses', ties := ties' } =
        complementaryBonus ref team := by cases ref <;> rfl
    have hc : consistencyScore { team with wins := wins', losses := losses', ties := ties' } =
        consistencyScore team := rfl
    simp only [scoreTeam, hb, hc] at h ⊢
    norm_num
    linarith
  · intro consistency' h
    have hb : complementaryBonus ref { team with consistency := consistency' } =
        complementaryBonus ref team := by cases ref <;> rfl
    have hw : winRate { team with consistency := consistency' } = winRate team := rfl
    have hc : consistencyScore team ≤ consistencyScore { team with consistency := consistency' } := by
      unfold consistencyScore
      exact max_le_max (le_refl 0) (by simp only; linarith)
    simp only [scoreTeam, hb, hw]
    norm_num
    linarith

/-- C4, at concrete inputs: total 60 raised to 70, a 2-1-1 record replaced by 3-1-0, and
consistency 150 lowered to 120 (both above 100) and to 15. -/
theorem pickScore_monotone_witness :
    (scoreTeam none ⟨2, ⟨60, 25, 45⟩, some 3, 2, 1, 1, 0, 150⟩).pickScore ≤
      (scoreTeam none ⟨2, ⟨70, 25, 45⟩, some 3, 2, 1, 1, 0, 150⟩).pickScore ∧
    (scoreTeam none ⟨2, ⟨60, 25, 45⟩, some 3, 2, 1, 1, 0, 150⟩).pickScore ≤
      (scoreTeam none ⟨2, ⟨60, 25, 45⟩, some 3, 3, 1, 0, 0, 150⟩).pickScore ∧
    (scoreTeam none ⟨2, ⟨60, 25, 45⟩, some 3, 2, 1, 1, 0, 150⟩).pickScore ≤
      (scoreTeam none ⟨2, ⟨60, 25, 45⟩, some 3, 2, 1, 1, 0, 120⟩).pickScore ∧
    (scoreTeam none ⟨2, ⟨60, 25, 45⟩, some 3, 2, 1, 1, 0, 150⟩).pickScore ≤
      (scoreTeam none ⟨2, ⟨60, 25, 45⟩, some 3, 2, 1, 1, 0, 15⟩).pickScore :=
  ⟨(pickScore_monotone none ⟨2, ⟨60, 25, 45⟩, some 3, 2, 1, 1, 0, 150⟩).1 70 (by norm_num),
   (pickScore_monotone none ⟨2, ⟨60, 25, 45⟩, some 3, 2, 1, 1, 0, 150⟩).2.1 3 1 0
     (by norm_num [scoreTeam, winRate, totalMatches]),
   (pickScore_monotone none ⟨2, ⟨60, 25, 45⟩, some 3, 2, 1, 1, 0, 150⟩).2.2 120 (by norm_num),
   (pickScore_monotone none ⟨2, ⟨60, 25, 45⟩, some 3, 2, 1, 1, 0, 150⟩).2.2 15 (by norm_num)⟩

/-! ## C5: `pickOrder` is 1..K -/

/-- C5: the list produced by `applyFiltersAndSort` carries the `pickOrder` values
1, 2, ..., K in list order, K being the number of stored candidates that pass the active
filters; the list built by `loadEvent` carries 1, ..., n, n being the number of
candidates, and is in `pickScore`-descending order. -/
theorem pickOrder_contiguous :
    (∀ (currentPickList : List RankedTeam) (sortBy : String) (minOPR : ℚ)
        (strengthFilter : String),
      (applyFiltersAndSort currentPickList sortBy minOPR strengthFilter).map
          RankedTeam.pickOrder =
        List.range' 1 (currentPickList.filter (passesFilters minOPR strengthFilter)).length) ∧
    (∀ (teamsWithData : List Team) (yourTeam : YourTeam),
      (loadEvent teamsWithData yourTeam).map RankedTeam.pickOrder =
          List.range' 1 (teamsWithData.filter (isCandidate yourTeam)).length ∧
        (loadEvent teamsWithData yourTeam).Pairwise (fun a b => b.pickScore ≤ a.pickScore)) := by
  constructor
  · intro currentPickList sortBy minOPR strengthFilter
    unfold applyFiltersAndSort
    rw [map_pickOrder_setPickOrder, List.length_map,
      ← (filteredSorted_perm currentPickList sortBy minOPR strengthFilter).length_eq,
      List.length_map]
  · intro teamsWithData yourTeam
    constructor
    · unfold loadEvent
      rw [map_pickOrder_assignPickOrder, (jsSort_perm _ _).length_eq, List.length_map]
    · have hs := jsSort_pairwise (fun a b : ScoredTeam => b.pickScore - a.pickScore)
        (fun a => -a.pickScore) (fun a b => by constructor <;> intro h <;> beta_reduce at h ⊢ <;> linarith)
        ((teamsWithData.filter (isCandidate yourTeam)).map
          (scoreTeam (yourTeamData teamsWithData yourTeam)))
      have hm : (loadEvent teamsWithData yourTeam).map RankedTeam.toScoredTeam =
          jsSort (fun a b : ScoredTeam => b.pickScore - a.pickScore)
            ((teamsWithData.filter (isCandidate yourTeam)).map
              (scoreTeam (yourTeamData teamsWithData yourTeam))) := by
        unfold loadEvent
        rw [map_toScoredTeam_assignPickOrder]
      rw [← hm, List.pairwise_map] at hs
      exact hs.imp (fun h => by linarith)

/-! ## C6: the strength filter -/

/-- C6, as stated, fails at the boundary: team 101 (`opr.auto = 20`, `opr.dc = 40`) is in
the output under the "auto" filter and under the "teleop" filter. -/
theorem strength_filter_strict_counterexample :
    ¬ (∀ r ∈ applyFiltersAndSort boundaryPickList "pickScore" 0 "auto", r.opr.auto > 20) ∧
    ¬ (∀ r ∈ applyFiltersAndSort boundaryPickList "pickScore" 0 "teleop", r.opr.dc > 40) := by
  constructor <;>
  norm_num [boundaryPickList, loadEvent, jsSort, yourTeamData, isCandidate, scoreTeam,
    assignPickOrder, complementaryBonus, consistencyScore, winRate, totalMatches,
    applyFiltersAndSort, filteredSorted, List.enum, List.enumFrom, passesFilters, sortCompare,
    setPickOrder]

/-- C6 (amended): every team in the output of `applyFiltersAndSort` has `opr.auto >= 20`
under "auto", `opr.dc >= 40` under "teleop", and `consistency <= 30` under "consistent". -/
theorem strength_filter_spec (currentPickList : List RankedTeam) (sortBy : String)
    (minOPR : ℚ) (strengthFilter : String) :
    ∀ r ∈ applyFiltersAndSort currentPickList sortBy minOPR strengthFilter,
      (strengthFilter = "auto" → 20 ≤ r.opr.auto) ∧
      (strengthFilter = "teleop" → 40 ≤ r.opr.dc) ∧
      (strengthFilter = "consistent" → r.consistency ≤ 30) := by
  intro r hr
  obtain ⟨t, -, hp, hrt⟩ := mem_applyFiltersAndSort hr
  have hopr : r.opr = t.opr := by
    show r.toScoredTeam.opr = t.toScoredTeam.opr
    rw [hrt]
  have hcons : r.consistency = t.consistency := by
    show r.toScoredTeam.consistency = t.toScoredTeam.consistency
    rw [hrt]
  rw [hopr, hcons]
  unfold passesFilters at hp
  split_ifs at hp with h1 h2 h3 h4
  refine ⟨fun hs => ?_, fun hs => ?_, fun hs => ?_⟩
  · exact not_lt.mp (fun hlt => h2 ⟨hs, hlt⟩)
  · exact not_lt.mp (fun hlt => h3 ⟨hs, hlt⟩)
  · exact not_lt.mp (fun hlt => h4 ⟨hs, hlt⟩)

/-- C6 (amended), at a concrete input: the record of team 101 is in the output under the
"auto" filter and satisfies the three implications. -/
theorem strength_filter_spec_witness :
    (⟨⟨⟨101, ⟨60, 20, 40⟩, some 5, 3, 2, 0, 0, 15⟩, 53, 0, 60⟩, 1⟩ : RankedTeam) ∈
        applyFiltersAndSort boundaryPickList "pickScore" 0 "auto" ∧
      (("auto" = "auto" → (20 : ℚ) ≤ 20) ∧ ("auto" = "teleop" → (40 : ℚ) ≤ 40) ∧
        ("auto" = "consistent" → (15 : ℚ) ≤ 30)) :=
  have hmem : (⟨⟨⟨101, ⟨60, 20, 40⟩, some 5, 3, 2, 0, 0, 15⟩, 53, 0, 60⟩, 1⟩ : RankedTeam) ∈
      applyFiltersAndSort boundaryPickList "pickScore" 0 "auto" := by
    norm_num [boundaryPickList, loadEvent, jsSort, yourTeamData, isCandidate, scoreTeam,
      assignPickOrder, complementaryBonus, consistencyScore, winRate, totalMatches,
      applyFiltersAndSort, filteredSorted, List.enum, List.enumFrom, passesFilters,
      sortCompare, setPickOrder]
  ⟨hmem, strength_filter_spec boundaryPickList "pickScore" 0 "auto" _ hmem⟩

/-! ## C7: the minimum-OPR filter -/

/-- C7: no team with `opr.total < minOPR` is in the output of `applyFiltersAndSort`,
whatever its other fields, and every stored team with `opr.total >= minOPR` that passes
the tests of the active strength filter is in the output (up to its `pickOrder`). -/
theorem minOPR_filter_spec (currentPickList : List RankedTeam) (sortBy : String)
    (minOPR : ℚ) (strengthFilter : String) :
    (∀ r ∈ applyFiltersAndSort currentPickList sortBy minOPR strengthFilter,
      ¬ r.opr.total < minOPR) ∧
    (∀ t ∈ currentPickList, minOPR ≤ t.opr.total →
      (strengthFilter = "auto" → ¬ t.opr.auto < 20) →
      (strengthFilter = "teleop" → ¬ t.opr.dc < 40) →
      (strengthFilter = "consistent" → ¬ t.consistency > 30) →
      ∃ r ∈ applyFiltersAndSort currentPickList sortBy minOPR strengthFilter,
        r.toScoredTeam = t.toScoredTeam) := by
  constructor
  · intro r hr
    obtain ⟨t, -, hp, hrt⟩ := mem_applyFiltersAndSort hr
    have hopr : r.opr = t.opr := by
      show r.toScoredTeam.opr = t.toScoredTeam.opr
      rw [hrt]
    rw [hopr]
    unfold passesFilters at hp
    split_ifs at hp with h1
    exact h1
  · intro t ht hm ha hd hc
    have hp : passesFilters minOPR strengthFilter t = true := by
      unfold passesFilters
      rw [if_neg (not_lt.mpr hm), if_neg (fun h => ha h.1 h.2), if_neg (fun h => hd h.1 h.2),
        if_neg (fun h => hc h.1 h.2)]
    have h1 : t.toScoredTeam ∈ (currentPickList.filter
        (passesFilters minOPR strengthFilter)).map RankedTeam.toScoredTeam :=
      List.mem_map_of_mem _ (List.mem_filter.mpr ⟨ht, hp⟩)
    rw [← (applyFiltersAndSort_perm currentPickList sortBy minOPR strengthFilter).mem_iff,
      List.mem_map] at h1
    obtain ⟨r, hr, hrt⟩ := h1
    exact ⟨r, hr, hrt⟩

/-- C7, at a concrete input with `minOPR = 50`: of the stored teams 8 (total 60) and
7 (total 45), no output record has a total below 50 and team 8 is in the output. -/
theorem minOPR_filter_spec_witness :
    (∀ r ∈ applyFiltersAndSort
        [⟨⟨⟨8, ⟨60, 25, 45⟩, none, 0, 0, 0, 0, 15⟩, 47, 0, 0⟩, 1⟩,
         ⟨⟨⟨7, ⟨45, 25, 45⟩, none, 0, 0, 0, 0, 15⟩, 79 / 2, 0, 0⟩, 2⟩] "opr" 50 "",
      ¬ r.opr.total < 50) ∧
    (∃ r ∈ applyFiltersAndSort
        [⟨⟨⟨8, ⟨60, 25, 45⟩, none, 0, 0, 0, 0, 15⟩, 47, 0, 0⟩, 1⟩,
         ⟨⟨⟨7, ⟨45, 25, 45⟩, none, 0, 0, 0, 0, 15⟩, 79 / 2, 0, 0⟩, 2⟩] "opr" 50 "",
      r.toScoredTeam = ⟨⟨8, ⟨60, 25, 45⟩, none, 0, 0, 0, 0, 15⟩, 47, 0, 0⟩) :=
  ⟨(minOPR_filter_spec
      [⟨⟨⟨8, ⟨60, 25, 45⟩, none, 0, 0, 0, 0, 15⟩, 47, 0, 0⟩, 1⟩,
       ⟨⟨⟨7, ⟨45, 25, 45⟩, none, 0, 0, 0, 0, 15⟩, 79 / 2, 0, 0⟩, 2⟩] "opr" 50 "").1,
   (minOPR_filter_spec
      [⟨⟨⟨8, ⟨60, 25, 45⟩, none, 0, 0, 0, 0, 15⟩, 47, 0, 0⟩, 1⟩,
       ⟨⟨⟨7, ⟨45, 25, 45⟩, none, 0, 0, 0, 0, 15⟩, 79 / 2, 0, 0⟩, 2⟩] "opr" 50 "").2
      ⟨⟨⟨8, ⟨60, 25, 45⟩, none, 0, 0, 0, 0, 15⟩, 47, 0, 0⟩, 1⟩
      (List.mem_cons_self _ _) (by norm_num) (by decide) (by decide) (by decide)⟩

/-! ## C8: the sort order -/

/-- The rendered list is ordered by any key that the active comparator compares by. -/
theorem applyFiltersAndSort_pairwise (currentPickList : List RankedTeam) (sortBy : String)
    (minOPR : ℚ) (strengthFilter : String) (key : ScoredTeam → ℚ)
    (hkey : ∀ a b : RankedTeam,
      sortCompare sortBy a b ≤ 0 ↔ key a.toScoredTeam ≤ key b.toScoredTeam) :
    (applyFiltersAndSort currentPickList sortBy minOPR strengthFilter).Pairwise
      (fun a b => key a.toScoredTeam ≤ key b.toScoredTeam) := by
  have h1 := jsSort_pairwise (fun p q : Nat × RankedTeam => sortCompare sortBy p.2 q.2)
    (fun p => key p.2.toScoredTeam) (fun p q => hkey p.2 q.2)
    (currentPickList.enum.filter (fun p => passesFilters minOPR strengthFilter p.2))
  have h2 : ((applyFiltersAndSort currentPickList sortBy minOPR strengthFilter).map
      RankedTeam.toScoredTeam).Pairwise (fun a b => key a ≤ key b) := by
    unfold applyFiltersAndSort
    rw [map_toScoredTeam_setPickOrder, List.map_map, List.pairwise_map]
    exact h1
  rw [List.pairwise_map] at h2
  exact h2

/-- C8: the output of `applyFiltersAndSort` is ordered by the active key, any two teams
in list order (adjacent ones in particular) being non-increasing in `opr.total` for
'opr', non-decreasing in `consistency` for 'consistency', non-increasing in `opr.auto`
for 'autoOPR', in `opr.dc` for 'dcOPR', in `winRate` for 'winRate', non-decreasing in
`rank || 999` for 'rank' (so in `rank` among teams that have one), and non-increasing in
`pickScore` for every other value of `sortBy`; and, up to `pickOrder`, the output is a
permutation of the stored teams that pass the filters. -/
theorem sort_order_spec (currentPickList : List RankedTeam) (sortBy : String) (minOPR : ℚ)
    (strengthFilter : String) :
    (sortBy = "opr" →
      (applyFiltersAndSort currentPickList sortBy minOPR strengthFilter).Pairwise
        (fun a b => b.opr.total ≤ a.opr.total)) ∧
    (sortBy = "consistency" →
      (applyFiltersAndSort currentPickList sortBy minOPR strengthFilter).Pairwise
        (fun a b => a.consistency ≤ b.consistency)) ∧
    (sortBy = "autoOPR" →
      (applyFiltersAndSort currentPickList sortBy minOPR strengthFilter).Pairwise
        (fun a b => b.opr.auto ≤ a.opr.auto)) ∧
    (sortBy = "dcOPR" →
      (applyFiltersAndSort currentPickList sortBy minOPR strengthFilter).Pairwise
        (fun a b => b.opr.dc ≤ a.opr.dc)) ∧
    (sortBy = "winRate" →
      (applyFiltersAndSort currentPickList sortBy minOPR strengthFilter).Pairwise
        (fun a b => b.winRate ≤ a.winRate)) ∧
    (sortBy = "rank" →
      (applyFiltersAndSort currentPickList sortBy minOPR strengthFilter).Pairwise
        (fun a b => rankOr999 a.rank ≤ rankOr999 b.rank ∧
          ∀ m n : Nat, a.rank = some m → b.rank = some n → 0 < m → 0 < n → m ≤ n)) ∧
    (sortBy ∉ ["opr", "consistency", "autoOPR", "dcOPR", "winRate", "rank"] →
      (applyFiltersAndSort currentPickList sortBy minOPR strengthFilter).Pairwise
        (fun a b => b.pickScore ≤ a.pickScore)) ∧
    ((applyFiltersAndSort currentPickList sortBy minOPR strengthFilter).map
        RankedTeam.toScoredTeam).Perm
      ((currentPickList.filter (passesFilters minOPR strengthFilter)).map
        RankedTeam.toScoredTeam) := by
  refine ⟨?_, ?_, ?_, ?_, ?_, ?_, ?_, applyFiltersAndSort_perm _ _ _ _⟩
  · intro hs
    subst hs
    refine (applyFiltersAndSort_pairwise currentPickList "opr" minOPR strengthFilter
      (fun a => -a.opr.total) (fun a b => ?_)).imp (fun h => neg_le_neg_iff.mp h)
    simp only [sortCompare, if_true]
    constructor <;> intro h <;> linarith
  · intro hs
    subst hs
    refine (applyFiltersAndSort_pairwise currentPickList "consistency" minOPR strengthFilter
      (fun a => a.consistency) (fun a b => ?_)).imp (fun h => h)
    have e : sortCompare "consistency" a b = a.consistency - b.consistency := by
      simp [sortCompare]
    rw [e]
    beta_reduce
    constructor <;> intro h <;> linarith
  · intro hs
    subst hs
    refine (applyFiltersAndSort_pairwise currentPickList "autoOPR" minOPR strengthFilter
      (fun a => -a.opr.auto) (fun a b => ?_)).imp (fun h => neg_le_neg_iff.mp h)
    have e : sortCompare "autoOPR" a b = b.opr.auto - a.opr.auto := by
      simp [sortCompare]
    rw [e]
    beta_reduce
    constructor <;> intro h <;> linarith
  · intro hs
    subst hs
    refine (applyFiltersAndSort_pairwise currentPickList "dcOPR" minOPR strengthFilter
      (fun a => -a.opr.dc) (fun a b => ?_)).imp (fun h => neg_le_neg_iff.mp h)
    have e : sortCompare "dcOPR" a b = b.opr.dc - a.opr.dc := by
      simp [sortCompare]
    rw [e]
    beta_reduce
    constructor <;> intro h <;> linarith
  · intro hs
    subst hs
    refine (applyFiltersAndSort_pairwise currentPickList "winRate" minOPR strengthFilter
      (fun a => -a.winRate) (fun a b => ?_)).imp (fun h => neg_le_neg_iff.mp h)
    have e : sortCompare "winRate" a b = b.winRate - a.winRate := by
      simp [sortCompare]
    rw [e]
    beta_reduce
    constructor <;> intro h <;> linarith
  · intro hs
    subst hs
    refine (applyFiltersAndSort_pairwise currentPickList "rank" minOPR strengthFilter
      (fun a => rankOr999 a.rank) (fun a b => ?_)).imp (fun {a b} h => ⟨h, ?_⟩)
    · have e : sortCompare "rank" a b = rankOr999 a.rank - rankOr999 b.rank := by
        simp [sortCompare]
      rw [e]
      constructor <;> intro h <;> linarith
    · intro m n hm hn hm0 hn0
      have h' : rankOr999 a.rank ≤ rankOr999 b.rank := h
      rw [hm, hn] at h'
      simp only [rankOr999, if_neg (Nat.pos_iff_ne_zero.mp hm0),
        if_neg (Nat.pos_iff_ne_zero.mp hn0)] at h'
      exact_mod_cast h'
  · intro hs
    simp only [List.mem_cons, List.mem_singleton, List.not_mem_nil, or_false, not_or] at hs
    obtain ⟨h1, h2, h3, h4, h5, h6⟩ := hs
    refine (applyFiltersAndSort_pairwise currentPickList sortBy minOPR strengthFilter
      (fun a => -a.pickScore) (fun a b => ?_)).imp (fun h => neg_le_neg_iff.mp h)
    have e : sortCompare sortBy a b = b.pickScore - a.pickScore := by
      simp [sortCompare, h1, h2, h3, h4, h5, h6]
    rw [e]
    beta_reduce
    constructor <;> intro h <;> linarith

/-- C8, at a concrete input: two stored teams sorted by 'opr'. -/
theorem sort_order_spec_witness :
    (applyFiltersAndSort
      [⟨⟨⟨7, ⟨45, 25, 45⟩, none, 0, 0, 0, 0, 15⟩, 79 / 2, 0, 0⟩, 1⟩,
       ⟨⟨⟨8, ⟨60, 25, 45⟩, none, 0, 0, 0, 0, 15⟩, 47, 0, 0⟩, 2⟩] "opr" 0 "").Pairwise
      (fun a b => b.opr.total ≤ a.opr.total) :=
  (sort_order_spec
    [⟨⟨⟨7, ⟨45, 25, 45⟩, none, 0, 0, 0, 0, 15⟩, 79 / 2, 0, 0⟩, 1⟩,
     ⟨⟨⟨8, ⟨60, 25, 45⟩, none, 0, 0, 0, 0, 15⟩, 47, 0, 0⟩, 2⟩] "opr" 0 "").1 rfl

/-! ## C9: missing ranks under the 'rank' key -/

/-- C9, as stated, fails for ranks above the sentinel: under 'rank', team 11 (rank
absent, sorted as 999) comes before team 12 (rank 1000), in the output of
`applyFiltersAndSort` and in the rows of `displayTopTeams`, so it is not the case that no
team without a rank comes before a team with a positive rank. -/
theorem missing_rank_last_counterexample :
    ¬ (applyFiltersAndSort highRankPickList "rank" 0 "").Pairwise
        (fun a b => ¬ (a.rank = none ∧ ∃ n, 0 < n ∧ b.rank = some n)) ∧
    ¬ (displayTopTeams highRankDashboard).Pairwise
        (fun a b => ¬ (a.rank = none ∧ ∃ n, 0 < n ∧ b.rank = some n)) := by
  constructor
  · norm_num [highRankPickList, loadEvent, jsSort, yourTeamData, isCandidate, scoreTeam,
      assignPickOrder, complementaryBonus, consistencyScore, winRate, totalMatches,
      applyFiltersAndSort, filteredSorted, List.enum, List.enumFrom, passesFilters,
      sortCompare, setPickOrder, rankOr999]
  · norm_num [highRankDashboard, displayTopTeams, displayTopTeamsSorted, jsSort, rankOr999]

theorem rankOr999_pairwise_imp {α : Type} (rank : α → Option Nat) (l : List α)
    (h : l.Pairwise (fun a b => rankOr999 (rank a) ≤ rankOr999 (rank b))) :
    l.Pairwise (fun a b => ¬ (rank a = none ∧ ∃ n, 0 < n ∧ n < 999 ∧ rank b = some n)) := by
  refine h.imp (fun {a b} hab => ?_)
  rintro ⟨ha, n, hn0, hn, hb⟩
  rw [ha, hb] at hab
  simp only [rankOr999, if_neg (Nat.pos_iff_ne_zero.mp hn0)] at hab
  have h1 : (999 : ℚ) ≤ ((n : ℕ) : ℚ) := hab
  have h2 : (999 : ℕ) ≤ n := by exact_mod_cast h1
  omega

/-- C9 (amended): under sort key 'rank' a missing rank sorts as 999, so no team whose rank
is absent comes before a team with a rank from 1 to 998, in the output of
`applyFiltersAndSort`, in the sorted list of `displayTopTeams` and in the ten rows it
renders. -/
theorem missing_rank_after_ranks_below_999 :
    (∀ (currentPickList : List RankedTeam) (minOPR : ℚ) (strengthFilter : String),
      (applyFiltersAndSort currentPickList "rank" minOPR strengthFilter).Pairwise
        (fun a b => ¬ (a.rank = none ∧ ∃ n, 0 < n ∧ n < 999 ∧ b.rank = some n))) ∧
    (∀ teams : List DashboardTeam,
      (displayTopTeamsSorted teams).Pairwise
          (fun a b => ¬ (a.rank = none ∧ ∃ n, 0 < n ∧ n < 999 ∧ b.rank = some n)) ∧
        (displayTopTeams teams).Pairwise
          (fun a b => ¬ (a.rank = none ∧ ∃ n, 0 < n ∧ n < 999 ∧ b.rank = some n))) := by
  constructor
  · intro currentPickList minOPR strengthFilter
    have h := applyFiltersAndSort_pairwise currentPickList "rank" minOPR strengthFilter
      (fun a => rankOr999 a.rank) (fun a b => by
        have e : sortCompare "rank" a b = rankOr999 a.rank - rankOr999 b.rank := by
          simp [sortCompare]
        rw [e]
        beta_reduce
        constructor <;> intro h <;> linarith)
    exact rankOr999_pairwise_imp (fun r : RankedTeam => r.rank) _ h
  · intro teams
    have h := jsSort_pairwise
      (fun a b : DashboardTeam => rankOr999 a.rank - rankOr999 b.rank)
      (fun a => rankOr999 a.rank) (fun a b => by
        beta_reduce
        constructor <;> intro h <;> linarith) teams
    have h' := rankOr999_pairwise_imp (fun r : DashboardTeam => r.rank) _ h
    exact ⟨h', h'.take⟩

/-! ## C10: the reference team is not a candidate -/

theorem map_toTeam_loadEvent_perm (teamsWithData : List Team) (yourTeam : YourTeam) :
    ((loadEvent teamsWithData yourTeam).map (fun r => r.toTeam)).Perm
      (teamsWithData.filter (isCandidate yourTeam)) := by
  have h1 : (loadEvent teamsWithData yourTeam).map (fun r => r.toTeam) =
      ((loadEvent teamsWithData yourTeam).map RankedTeam.toScoredTeam).map
        ScoredTeam.toTeam := by
    rw [List.map_map]; rfl
  have h2 : ((teamsWithData.filter (isCandidate yourTeam)).map
      (scoreTeam (yourTeamData teamsWithData yourTeam))).map ScoredTeam.toTeam =
      teamsWithData.filter (isCandidate yourTeam) := by
    rw [List.map_map]
    exact List.map_id _
  rw [h1, loadEvent, map_toScoredTeam_assignPickOrder]
  have h3 := (jsSort_perm (fun a b : ScoredTeam => b.pickScore - a.pickScore)
    ((teamsWithData.filter (isCandidate yourTeam)).map
      (scoreTeam (yourTeamData teamsWithData yourTeam)))).map ScoredTeam.toTeam
  rw [h2] at h3
  exact h3

/-- C10: when a reference team number `n` is given, no record of the pick list built by
`loadEvent` has `teamNumber = n`; the teams of the pick list are, up to order, the input
teams whose number is not `n`, so every other input team appears in it exactly as often
as in the input (once, for an input without repeated teams). -/
theorem reference_team_excluded (teamsWithData : List Team) (n : Int) :
    (∀ r ∈ loadEvent teamsWithData (YourTeam.number n), r.teamNumber ≠ n) ∧
    ((loadEvent teamsWithData (YourTeam.number n)).map (fun r => r.toTeam)).Perm
      (teamsWithData.filter (fun t => decide (t.teamNumber ≠ n))) ∧
    (∀ t : Team, t.teamNumber ≠ n →
      ((loadEvent teamsWithData (YourTeam.number n)).map (fun r => r.toTeam)).count t =
        teamsWithData.count t) ∧
    (teamsWithData.Nodup →
      ((loadEvent teamsWithData (YourTeam.number n)).map (fun r => r.toTeam)).Nodup) := by
  have hperm := map_toTeam_loadEvent_perm teamsWithData (YourTeam.number n)
  refine ⟨?_, hperm, ?_, ?_⟩
  · intro r hr
    have h1 : r.toTeam ∈ (loadEvent teamsWithData (YourTeam.number n)).map
        (fun r => r.toTeam) := List.mem_map_of_mem (fun r : RankedTeam => r.toTeam) hr
    rw [hperm.mem_iff, List.mem_filter] at h1
    have h2 := h1.2
    simp only [isCandidate, decide_eq_true_eq] at h2
    exact h2
  · intro t ht
    rw [hperm.count_eq]
    exact List.count_filter (by simp [isCandidate, ht])
  · intro hnd
    exact hperm.nodup_iff.mpr (hnd.filter _)

/-- C10, at a concrete input: with reference number 1 given, team 2 (which is not the
reference) occurs exactly once among the teams of the pick list. -/
theorem reference_team_excluded_witness :
    ((loadEvent [⟨1, ⟨30, 5, 10⟩, none, 0, 0, 0, 0, 15⟩,
        ⟨2, ⟨60, 25, 45⟩, some 3, 2, 1, 1, 0, 15⟩] (YourTeam.number 1)).map
      (fun r => r.toTeam)).count ⟨2, ⟨60, 25, 45⟩, some 3, 2, 1, 1, 0, 15⟩ =
    [(⟨1, ⟨30, 5, 10⟩, none, 0, 0, 0, 0, 15⟩ : Team),
      ⟨2, ⟨60, 25, 45⟩, some 3, 2, 1, 1, 0, 15⟩].count
        ⟨2, ⟨60, 25, 45⟩, some 3, 2, 1, 1, 0, 15⟩ :=
  (reference_team_excluded [⟨1, ⟨30, 5, 10⟩, none, 0, 0, 0, 0, 15⟩,
    ⟨2, ⟨60, 25, 45⟩, some 3, 2, 1, 1, 0, 15⟩] 1).2.2.1
    ⟨2, ⟨60, 25, 45⟩, some 3, 2, 1, 1, 0, 15⟩ (by decide)

/-! ## C11: the Monte Carlo simulation for two teams with zero ratings -/

theorem foldl_add_eq_sum (l : List ℚ) : ∀ a : ℚ, l.foldl (fun a b => a + b) a = a + l.sum := by
  induction l with
  | nil => intro a; simp
  | cons x xs ih => intro a; simp only [List.foldl_cons, List.sum_cons, ih]; ring

theorem foldl_sq_eq_sum (m : ℚ) (l : List ℚ) :
    ∀ a : ℚ, l.foldl (fun sum val => sum + (val - m) ^ 2) a =
      a + (l.map (fun val => (val - m) ^ 2)).sum := by
  induction l with
  | nil => intro a; simp
  | cons x xs ih => intro a; simp only [List.foldl_cons, List.map_cons, List.sum_cons, ih]; ring

theorem foldl_min_le_init {α : Type} [LinearOrder α] (rest : List α) : ∀ first : α, rest.foldl min first ≤ first := by
  induction rest with
  | nil => intro first; exact le_refl _
  | cons x xs ih => intro first; exact le_trans (ih _) (min_le_left _ _)

theorem foldl_min_le_mem {α : Type} [LinearOrder α] (rest : List α) :
    ∀ first : α, ∀ s ∈ first :: rest, rest.foldl min first ≤ s := by
  induction rest with
  | nil =>
    intro first s hs
    rw [List.mem_singleton] at hs
    rw [hs]
    exact le_refl _
  | cons x xs ih =>
    intro first s hs
    rw [List.foldl_cons]
    rcases List.mem_cons.mp hs with h | h
    · rw [h]; exact le_trans (foldl_min_le_init xs _) (min_le_left _ _)
    · rcases List.mem_cons.mp h with h' | h'
      · rw [h']; exact le_trans (foldl_min_le_init xs _) (min_le_right _ _)
      · exact ih _ s (List.mem_cons_of_mem _ h')

theorem foldl_min_mem {α : Type} [LinearOrder α] (rest : List α) :
    ∀ first : α, rest.foldl min first ∈ first :: rest := by
  induction rest with
  | nil => intro first; exact List.mem_singleton.mpr rfl
  | cons x xs ih =>
    intro first
    rw [List.foldl_cons]
    rcases List.mem_cons.mp (ih (min first x)) with h | h
    · rw [h]
      rcases min_choice first x with h' | h'
      · rw [h']; exact List.mem_cons_self _ _
      · rw [h']; exact List.mem_cons_of_mem _ (List.mem_cons_self _ _)
    · exact List.mem_cons_of_mem _ (List.mem_cons_of_mem _ h)

theorem init_le_foldl_max {α : Type} [LinearOrder α] (rest : List α) : ∀ first : α, first ≤ rest.foldl max first := by
  induction rest with
  | nil => intro first; exact le_refl _
  | cons x xs ih => intro first; exact le_trans (le_max_left _ _) (ih _)

theorem mem_le_foldl_max {α : Type} [LinearOrder α] (rest : List α) :
    ∀ first : α, ∀ s ∈ first :: rest, s ≤ rest.foldl max first := by
  induction rest with
  | nil =>
    intro first s hs
    rw [List.mem_singleton] at hs
    rw [hs]
    exact le_refl _
  | cons x xs ih =>
    intro first s hs
    rw [List.foldl_cons]
    rcases List.mem_cons.mp hs with h | h
    · rw [h]; exact le_trans (le_max_left _ _) (init_le_foldl_max xs _)
    · rcases List.mem_cons.mp h with h' | h'
      · rw [h']; exact le_trans (le_max_right _ _) (init_le_foldl_max xs _)
      · exact ih _ s (List.mem_cons_of_mem _ h')

theorem foldl_max_mem {α : Type} [LinearOrder α] (rest : List α) :
    ∀ first : α, rest.foldl max first ∈ first :: rest := by
  induction rest with
  | nil => intro first; exact List.mem_singleton.mpr rfl
  | cons x xs ih =>
    intro first
    rw [List.foldl_cons]
    rcases List.mem_cons.mp (ih (max first x)) with h | h
    · rw [h]
      rcases max_choice first x with h' | h'
      · rw [h']; exact List.mem_cons_self _ _
      · rw [h']; exact List.mem_cons_of_mem _ (List.mem_cons_self _ _)
    · exact List.mem_cons_of_mem _ (List.mem_cons_of_mem _ h)

theorem length_simulatedScores (gaussianRandom : Nat → ℚ) (stats1 stats2 : DashboardTeam)
    (iterations : Nat) :
    (simulatedScores gaussianRandom stats1 stats2 iterations).length = iterations := by
  simp [simulatedScores]

/-- With at least one trial the simulation returns a result, whose fields are the
summary of the simulated scores. -/
theorem runMonteCarloSimulation_eq_some (mathSqrt : ℚ → ℚ) (gaussianRandom : Nat → ℚ)
    (stats1 stats2 : DashboardTeam) (iterations : Nat) (hN : 1 ≤ iterations) :
    ∃ first rest, simulatedScores gaussianRandom stats1 stats2 iterations = first :: rest ∧
      runMonteCarloSimulation mathSqrt gaussianRandom stats1 stats2 iterations =
        some
          { mean := (first :: rest).sum / (iterations : ℚ)
            stdDev := mathSqrt
              (((first :: rest).map
                (fun val => (val - (first :: rest).sum / (iterations : ℚ)) ^ 2)).sum /
                  (iterations : ℚ))
            min := rest.foldl min first
            max := rest.foldl max first
            scores := first :: rest } := by
  cases hs : simulatedScores gaussianRandom stats1 stats2 iterations with
  | nil =>
    have hl := length_simulatedScores gaussianRandom stats1 stats2 iterations
    rw [hs] at hl
    simp at hl
    omega
  | cons first rest =>
    refine ⟨first, rest, rfl, ?_⟩
    simp only [runMonteCarloSimulation, hs, foldl_add_eq_sum, foldl_sq_eq_sum, zero_add]

/-- C11: for two teams with `opr.auto = opr.dc = 0`, every trial count and every sequence
of noise draws, each sample of `runMonteCarloSimulation` is exactly 0; hence with at
least one trial (and `Math.sqrt(0) = 0`) `mean = stdDev = min = max = 0`. -/
theorem zero_opr_samples_zero (mathSqrt : ℚ → ℚ) (gaussianRandom : Nat → ℚ)
    (stats1 stats2 : DashboardTeam) (iterations : Nat)
    (h1a : stats1.opr.auto = 0) (h1d : stats1.opr.dc = 0)
    (h2a : stats2.opr.auto = 0) (h2d : stats2.opr.dc = 0) :
    simulatedScores gaussianRandom stats1 stats2 iterations = List.replicate iterations 0 ∧
    (1 ≤ iterations → mathSqrt 0 = 0 →
      ∃ r, runMonteCarloSimulation mathSqrt gaussianRandom stats1 stats2 iterations = some r ∧
        r.scores = List.replicate iterations 0 ∧
        r.mean = 0 ∧ r.stdDev = 0 ∧ r.min = 0 ∧ r.max = 0) := by
  have hs : simulatedScores gaussianRandom stats1 stats2 iterations =
      List.replicate iterations 0 := by
    rw [List.eq_replicate_iff]
    refine ⟨length_simulatedScores _ _ _ _, ?_⟩
    intro b hb
    unfold simulatedScores at hb
    obtain ⟨i, -, hi⟩ := List.mem_map.mp hb
    rw [← hi]
    simp [trialScore, h1a, h1d, h2a, h2d]
  refine ⟨hs, ?_⟩
  intro hN hsqrt
  obtain ⟨first, rest, hfr, hrun⟩ :=
    runMonteCarloSimulation_eq_some mathSqrt gaussianRandom stats1 stats2 iterations hN
  have hzero : ∀ s ∈ first :: rest, s = 0 := by
    intro s hmem
    rw [← hfr, hs] at hmem
    exact (List.mem_replicate.mp hmem).2
  have hsum : (first :: rest).sum = 0 := List.sum_eq_zero hzero
  have hvar : ((first :: rest).map
      (fun val => (val - (first :: rest).sum / (iterations : ℚ)) ^ 2)).sum = 0 := by
    apply List.sum_eq_zero
    intro x hx
    obtain ⟨v, hv, hxv⟩ := List.mem_map.mp hx
    rw [← hxv, hsum, hzero v hv]
    norm_num
  refine ⟨_, hrun, ?_, ?_, ?_, ?_, ?_⟩
  · show first :: rest = _
    rw [← hfr, hs]
  · show (first :: rest).sum / (iterations : ℚ) = 0
    rw [hsum, zero_div]
  · show mathSqrt _ = 0
    rw [hvar, zero_div, hsqrt]
  · exact hzero _ (foldl_min_mem rest first)
  · exact hzero _ (foldl_max_mem rest first)

theorem sqrtOfSquares_zero : sqrtOfSquares 0 = 0 := by
  simp [sqrtOfSquares]

/-- C11, at a concrete input: two teams with zero ratings, three trials, noise draws
`-3, -2, -1, 0, 1, ...`. -/
theorem zero_opr_samples_zero_witness :
    simulatedScores (fun k => (k : ℚ) - 3) zeroOprTeam zeroOprTeam 3 = List.replicate 3 0 ∧
    ∃ r, runMonteCarloSimulation sqrtOfSquares (fun k => (k : ℚ) - 3) zeroOprTeam zeroOprTeam
        3 = some r ∧
      r.scores = List.replicate 3 0 ∧
      r.mean = 0 ∧ r.stdDev = 0 ∧ r.min = 0 ∧ r.max = 0 :=
  ⟨(zero_opr_samples_zero sqrtOfSquares (fun k => (k : ℚ) - 3) zeroOprTeam zeroOprTeam 3
      rfl rfl rfl rfl).1,
   (zero_opr_samples_zero sqrtOfSquares (fun k => (k : ℚ) - 3) zeroOprTeam zeroOprTeam 3
      rfl rfl rfl rfl).2 (by decide) sqrtOfSquares_zero⟩

/-! ## C14: the histogram of a zero-variance sample sequence -/

theorem length_incrementAt (bins : List Nat) :
    ∀ i, (incrementAt bins i).length = bins.length := by
  induction bins with
  | nil => intro i; rfl
  | cons b bs ih =>
    intro i
    cases i with
    | zero => rfl
    | succ j => simp [incrementAt, ih]

theorem sum_incrementAt (bins : List Nat) :
    ∀ i, i < bins.length → (incrementAt bins i).sum = bins.sum + 1 := by
  induction bins with
  | nil => intro i hi; simp at hi
  | cons b bs ih =>
    intro i hi
    cases i with
    | zero => simp [incrementAt]; omega
    | succ j =>
      have hj : j < bs.length := by simpa using hi
      simp [incrementAt, ih j hj]; omega

theorem getD_incrementAt (bins : List Nat) :
    ∀ i k, (incrementAt bins i).getD k 0 =
      bins.getD k 0 + (if i = k ∧ k < bins.length then 1 else 0) := by
  induction bins with
  | nil => intro i k; simp [incrementAt]
  | cons b bs ih =>
    intro i k
    cases i with
    | zero =>
      cases k with
      | zero => simp [incrementAt]
      | succ m => simp [incrementAt]
    | succ j =>
      cases k with
      | zero => simp [incrementAt]
      | succ m => simpa [incrementAt] using ih j m

theorem getD_replicate_zero (n k : Nat) : (List.replicate n (0 : ℕ)).getD k 0 = 0 := by
  rw [List.getD_eq_getElem?_getD, List.getElem?_replicate]
  split <;> rfl

theorem foldl_incrementBin_nan (f : ℚ → JsNumber) (l : List ℚ)
    (h : ∀ s ∈ l, f s = JsNumber.nan) :
    ∀ bins : List Nat, l.foldl (fun bins score => incrementBin bins (f score)) bins = bins := by
  induction l with
  | nil => intro bins; rfl
  | cons s rest ih =>
    intro bins
    rw [List.foldl_cons, h s (List.mem_cons_self _ _)]
    exact ih (fun s' hs' => h s' (List.mem_cons_of_mem _ hs')) bins

/-- For a non-empty sample sequence whose elements are all equal, `binWidth` is 0, every
`binIndex` is `NaN`, and no element of `bins` is incremented. -/
theorem histogramBins_zero_variance (first : ℚ) (rest : List ℚ)
    (h : ∀ s ∈ rest, s = first) :
    histogramBins (first :: rest) = List.replicate 20 0 := by
  have hall : ∀ s ∈ first :: rest, s = first := by
    intro s hs
    rcases List.mem_cons.mp hs with h' | h'
    · exact h'
    · exact h s h'
  have hlo : rest.foldl min first = first := hall _ (foldl_min_mem rest first)
  have hhi : rest.foldl max first = first := hall _ (foldl_max_mem rest first)
  simp only [histogramBins, hlo, hhi]
  rw [foldl_incrementBin_nan]
  · rfl
  · intro s hs
    rw [hall s hs]
    simp [binIndex, jsDiv, mathFloor, mathMin]

/-- C14 (what the code does at a zero-variance input): for the samples 0, 0, 0 the bin
width is 0, the `binIndex` of each sample is `NaN`, and all 20 bins stay at 0; bin 0
does not hold the 3 samples. -/
theorem histogram_zero_variance_drops_samples :
    binIndex 0 ((0 - 0) / (binCount : ℚ)) 0 = JsNumber.nan ∧
    histogramBins [0, 0, 0] = List.replicate 20 0 ∧
    (histogramBins [0, 0, 0]).getD 0 0 ≠ [(0 : ℚ), 0, 0].length := by
  have h := histogramBins_zero_variance 0 [0, 0] (by simp)
  refine ⟨by simp [binIndex, jsDiv, mathFloor, mathMin], h, ?_⟩
  rw [h]
  decide

/-! ## C15: the effect of `applyFiltersAndSort` on `currentPickList` -/

theorem getElem?_setPickOrder (l : List RankedTeam) :
    ∀ i k : Nat, (setPickOrder i l)[k]? =
      l[k]?.map (fun t : RankedTeam => ({ t with pickOrder := i + k + 1 } : RankedTeam)) := by
  induction l with
  | nil => intro i k; simp [setPickOrder]
  | cons t rest ih =>
    intro i k
    cases k with
    | zero => simp [setPickOrder]
    | succ j =>
      simp only [setPickOrder, List.getElem?_cons_succ, ih]
      have e : i + 1 + j + 1 = i + (j + 1) + 1 := by omega
      rw [e]

theorem mem_filteredSorted {currentPickList : List RankedTeam} {sortBy : String}
    {minOPR : ℚ} {strengthFilter : String} {p : Nat × RankedTeam} :
    p ∈ filteredSorted currentPickList sortBy minOPR strengthFilter ↔
      currentPickList[p.1]? = some p.2 ∧ passesFilters minOPR strengthFilter p.2 = true := by
  unfold filteredSorted
  rw [mem_jsSort, List.mem_filter]
  have : p ∈ currentPickList.enum ↔ currentPickList[p.1]? = some p.2 :=
    List.mk_mem_enum_iff_getElem?
  rw [this]

theorem getElem?_currentPickListAfter (currentPickList : List RankedTeam) (sortBy : String)
    (minOPR : ℚ) (strengthFilter : String) (i : Nat) :
    (currentPickListAfter currentPickList sortBy minOPR strengthFilter)[i]? =
      currentPickList[i]?.map (fun t : RankedTeam =>
        match ((filteredSorted currentPickList sortBy minOPR strengthFilter).map
          Prod.fst).indexOf? i with
        | some k => ({ t with pickOrder := k + 1 } : RankedTeam)
        | none => t) := by
  unfold currentPickListAfter
  rw [List.getElem?_map, List.getElem?_enum]
  cases currentPickList[i]? <;> rfl

/-- C15, as stated, fails: with the "teleop" filter on the stored list of teams 33, 32,
31 (`pickOrder` 1, 2, 3), only team 32 passes, and after `applyFiltersAndSort` its stored
record has `pickOrder` 1 instead of 2, so the stored list is not what it was. -/
theorem stored_pickOrder_overwritten_counterexample :
    threeTeamPickList.map (fun r => (r.teamNumber, r.pickOrder)) = [(33, 1), (32, 2), (31, 3)] ∧
    (currentPickListAfter threeTeamPickList "pickScore" 0 "teleop").map
        (fun r => (r.teamNumber, r.pickOrder)) = [(33, 1), (32, 1), (31, 3)] ∧
    currentPickListAfter threeTeamPickList "pickScore" 0 "teleop" ≠ threeTeamPickList := by
  have h1 : threeTeamPickList.map (fun r => (r.teamNumber, r.pickOrder)) =
      [(33, 1), (32, 2), (31, 3)] := by
    norm_num [threeTeamPickList, loadEvent, jsSort, yourTeamData, isCandidate, scoreTeam,
      assignPickOrder, complementaryBonus, consistencyScore, winRate, totalMatches]
  have h2 : (currentPickListAfter threeTeamPickList "pickScore" 0 "teleop").map
      (fun r => (r.teamNumber, r.pickOrder)) = [(33, 1), (32, 1), (31, 3)] := by
    norm_num [threeTeamPickList, loadEvent, jsSort, yourTeamData, isCandidate, scoreTeam,
      assignPickOrder, complementaryBonus, consistencyScore, winRate, totalMatches,
      currentPickListAfter, filteredSorted, List.enum, List.enumFrom, passesFilters,
      sortCompare, List.indexOf?]
  refine ⟨h1, h2, ?_⟩
  intro h
  rw [h, h1] at h2
  simp at h2

/-- C15 (amended): `applyFiltersAndSort` keeps the order of `currentPickList` and every
field of every record other than `pickOrder`; a record that does not pass the filters is
unchanged; a record that passes has its `pickOrder` overwritten with its position in the
rendered list, whose record at that position is that same stored record. -/
theorem applyFiltersAndSort_store_effect (currentPickList : List RankedTeam)
    (sortBy : String) (minOPR : ℚ) (strengthFilter : String) :
    (currentPickListAfter currentPickList sortBy minOPR strengthFilter).map
        RankedTeam.toScoredTeam = currentPickList.map RankedTeam.toScoredTeam ∧
    (∀ (i : Nat) (t : RankedTeam), currentPickList[i]? = some t →
      passesFilters minOPR strengthFilter t = false →
      (currentPickListAfter currentPickList sortBy minOPR strengthFilter)[i]? = some t) ∧
    (∀ (i : Nat) (t : RankedTeam), currentPickList[i]? = some t →
      passesFilters minOPR strengthFilter t = true →
      ∃ k : Nat,
        (currentPickListAfter currentPickList sortBy minOPR strengthFilter)[i]? =
          some { t with pickOrder := k + 1 } ∧
        (applyFiltersAndSort currentPickList sortBy minOPR strengthFilter)[k]? =
          some { t with pickOrder := k + 1 }) := by
  refine ⟨?_, ?_, ?_⟩
  · unfold currentPickListAfter
    rw [List.map_map]
    conv_rhs => rw [← List.enum_map_snd currentPickList, List.map_map]
    apply List.map_congr_left
    intro p _
    simp only [Function.comp]
    split <;> rfl
  · intro i t hi hp
    rw [getElem?_currentPickListAfter, hi]
    have hnone : ((filteredSorted currentPickList sortBy minOPR strengthFilter).map
        Prod.fst).indexOf? i = none := by
      unfold List.indexOf?
      rw [List.findIdx?_eq_none_iff]
      intro x hx
      obtain ⟨p, hpmem, hpx⟩ := List.mem_map.mp hx
      obtain ⟨hget, hpass⟩ := mem_filteredSorted.mp hpmem
      by_contra hne
      have hxi : x = i := by simpa using hne
      rw [hpx, hxi, hi] at hget
      have : t = p.2 := Option.some.inj hget
      rw [this, hpass] at hp
      exact Bool.noConfusion hp
    simp only [Option.map_some', hnone]
  · intro i t hi hp
    have hmem : (i, t) ∈ filteredSorted currentPickList sortBy minOPR strengthFilter :=
      mem_filteredSorted.mpr ⟨hi, hp⟩
    have hex : ∃ x, x ∈ (filteredSorted currentPickList sortBy minOPR strengthFilter).map
        Prod.fst ∧ (x == i) = true :=
      ⟨i, List.mem_map.mpr ⟨(i, t), hmem, rfl⟩, by simp⟩
    obtain ⟨k, hk⟩ : ∃ k, ((filteredSorted currentPickList sortBy minOPR
        strengthFilter).map Prod.fst).indexOf? i = some k := by
      unfold List.indexOf?
      rw [← Option.isSome_iff_exists, List.findIdx?_isSome]
      simpa using hex
    refine ⟨k, ?_, ?_⟩
    · rw [getElem?_currentPickListAfter, hi]
      simp only [Option.map_some', hk]
    · have hk' := hk
      unfold List.indexOf? at hk'
      rw [List.findIdx?_eq_some_iff_getElem] at hk'
      obtain ⟨hlt, hki, -⟩ := hk'
      have hlt' : k < (filteredSorted currentPickList sortBy minOPR strengthFilter).length := by
        simpa using hlt
      have hfst : ((filteredSorted currentPickList sortBy minOPR strengthFilter)[k]).1 = i := by
        simpa using hki
      have hpk := mem_filteredSorted.mp
        (List.getElem_mem hlt' :
          (filteredSorted currentPickList sortBy minOPR strengthFilter)[k] ∈ _)
      rw [hfst, hi] at hpk
      have hsnd : ((filteredSorted currentPickList sortBy minOPR strengthFilter)[k]).2 = t :=
        (Option.some.inj hpk.1).symm
      unfold applyFiltersAndSort
      rw [getElem?_setPickOrder, List.getElem?_map, List.getElem?_eq_getElem hlt']
      simp only [Option.map_some', hsnd, zero_add]

/-! ## Binary64 arithmetic: rounding and signs -/

namespace Binary64

theorem shiftFor_foldl_inv (q : ℕ) (l : List ℕ) (hl : ∀ k ∈ l, 1 ≤ k) :
    ∀ acc : ℕ, (acc = 0 ∨ 2 ^ (52 + acc) ≤ q) →
      (l.foldl (fun acc k => if 2 ^ (53 + (acc + k - 1)) ≤ q then acc + k else acc) acc = 0 ∨
        2 ^ (52 + l.foldl
          (fun acc k => if 2 ^ (53 + (acc + k - 1)) ≤ q then acc + k else acc) acc) ≤ q) := by
  induction l with
  | nil => intro acc h; exact h
  | cons k rest ih =>
    intro acc h
    rw [List.foldl_cons]
    apply ih (fun k' hk' => hl k' (List.mem_cons_of_mem _ hk'))
    have hk : 1 ≤ k := hl k (List.mem_cons_self _ _)
    by_cases hc : 2 ^ (53 + (acc + k - 1)) ≤ q
    · rw [if_pos hc]
      right
      have e : 53 + (acc + k - 1) = 52 + (acc + k) := by omega
      rw [e] at hc
      exact hc
    · rw [if_neg hc]
      exact h

/-- The shift is 0, or `q` has at least `53 + shift` bits. -/
theorem shiftFor_spec (q : ℕ) : shiftFor q = 0 ∨ 2 ^ (52 + shiftFor q) ≤ q :=
  shiftFor_foldl_inv q _ (by decide) 0 (Or.inl rfl)

theorem pow_shiftFor_le (q : ℕ) (hq : 1 ≤ q) : 2 ^ shiftFor q ≤ q := by
  rcases shiftFor_spec q with h | h
  · rw [h]; simpa using hq
  · exact le_trans (Nat.pow_le_pow_right (by norm_num) (by omega)) h

/-- Rounding goes down to the multiple of `2 ^ shift` below the quotient, or up to the next
one, and up only when the rest is at least half of `2 ^ shift`. -/
theorem roundNat_cases (n d : ℕ) :
    roundNat n d = n / d / 2 ^ shiftFor (n / d) * 2 ^ shiftFor (n / d) ∨
    (roundNat n d = n / d / 2 ^ shiftFor (n / d) * 2 ^ shiftFor (n / d) + 2 ^ shiftFor (n / d) ∧
      2 ^ shiftFor (n / d) * d ≤
        2 * (n - n / d / 2 ^ shiftFor (n / d) * 2 ^ shiftFor (n / d) * d)) := by
  unfold roundNat
  simp only []
  split_ifs with h1 h2 h3
  · left; rfl
  · right; exact ⟨rfl, le_of_lt h2⟩
  · left; rfl
  · right; exact ⟨rfl, by omega⟩

theorem roundNat_lower (n d : ℕ) :
    n / d / 2 ^ shiftFor (n / d) * 2 ^ shiftFor (n / d) ≤ roundNat n d := by
  rcases roundNat_cases n d with h | ⟨h, -⟩ <;> rw [h]
  exact Nat.le_add_right _ _

theorem roundNat_upper (n d : ℕ) :
    roundNat n d ≤ n / d / 2 ^ shiftFor (n / d) * 2 ^ shiftFor (n / d) + 2 ^ shiftFor (n / d) := by
  rcases roundNat_cases n d with h | ⟨h, -⟩ <;> rw [h]
  exact Nat.le_add_right _ _

theorem roundNat_pos (n d : ℕ) (h : 1 ≤ n / d) : 0 < roundNat n d := by
  have h1 := pow_shiftFor_le (n / d) h
  have h2 : 0 < n / d / 2 ^ shiftFor (n / d) :=
    Nat.div_pos h1 (Nat.pos_pow_of_pos _ (by norm_num))
  have h3 : 0 < n / d / 2 ^ shiftFor (n / d) * 2 ^ shiftFor (n / d) :=
    Nat.mul_pos h2 (Nat.pos_pow_of_pos _ (by norm_num))
  exact lt_of_lt_of_le h3 (roundNat_lower n d)

theorem roundNat_le_twice (n d : ℕ) (h : 1 ≤ n / d) : roundNat n d ≤ 2 * (n / d) := by
  have h1 := pow_shiftFor_le (n / d) h
  have h2 := roundNat_upper n d
  have h3 : n / d / 2 ^ shiftFor (n / d) * 2 ^ shiftFor (n / d) ≤ n / d :=
    Nat.div_mul_le_self _ _
  omega

theorem infinity_ne_nan (negative : Bool) : infinity negative ≠ F64.nan := by
  cases negative <;> simp [infinity]

theorem ofRatio_ne_nan (negative : Bool) (n d : ℕ) : ofRatio negative n d ≠ F64.nan := by
  unfold ofRatio
  by_cases h : 2 ^ 2098 ≤ roundNat n d
  · rw [if_pos h]; exact infinity_ne_nan _
  · rw [if_neg h]; exact F64.noConfusion

theorem ofRatio_false_cases (n d : ℕ) :
    ofRatio false n d = F64.posInfinity ∨ ofRatio false n d = F64.finite (roundNat n d) := by
  unfold ofRatio
  by_cases h : 2 ^ 2098 ≤ roundNat n d
  · rw [if_pos h]; left; rfl
  · rw [if_neg h]; right; rfl

theorem nonneg_iff (x : F64) :
    nonneg x = true ↔ x = F64.posInfinity ∨ ∃ k : ℤ, 0 ≤ k ∧ x = F64.finite k := by
  cases x <;> simp [nonneg, ble]

theorem nonneg_ofRatio_false (n d : ℕ) : nonneg (ofRatio false n d) = true := by
  rw [nonneg_iff]
  rcases ofRatio_false_cases n d with h | h
  · left; exact h
  · right; exact ⟨_, Int.natCast_nonneg _, h⟩

theorem ne_nan_of_nonneg {x : F64} (h : nonneg x = true) : x ≠ F64.nan := by
  intro hx
  rw [hx] at h
  simp [nonneg, ble] at h

theorem ofSteps_of_nonneg (k : ℤ) (hk : 0 ≤ k) : ofSteps k = ofRatio false k.natAbs 1 := by
  unfold ofSteps
  rw [decide_eq_false (not_lt.mpr hk)]

theorem nonneg_add {a b : F64} (ha : nonneg a = true) (hb : nonneg b = true) :
    nonneg (add a b) = true := by
  rw [nonneg_iff] at ha hb
  rcases ha with ha | ⟨x, hx, ha⟩ <;> rcases hb with hb | ⟨y, hy, hb⟩ <;> subst ha <;> subst hb
  · rfl
  · rfl
  · rfl
  · show nonneg (ofSteps (x + y)) = true
    rw [ofSteps_of_nonneg _ (by omega)]
    exact nonneg_ofRatio_false _ _

theorem nonneg_div_pos {a : F64} (ha : nonneg a = true) (w : ℤ) (hw : 0 < w) :
    nonneg (div a (F64.finite w)) = true := by
  rw [nonneg_iff] at ha
  rcases ha with ha | ⟨x, hx, ha⟩ <;> subst ha
  · show nonneg (infinity (decide (w < 0))) = true
    rw [decide_eq_false (by omega)]
    rfl
  · show nonneg (if w = 0 then _ else _) = true
    rw [if_neg (by omega)]
    have hs : decide ((x < 0) ≠ (w < 0)) = false := by
      apply decide_eq_false
      simp only [ne_eq, not_not, eq_iff_iff]
      constructor <;> intro h <;> omega
    rw [hs]
    exact nonneg_ofRatio_false _ _

theorem nonneg_sqrt {a : F64} (ha : nonneg a = true) : nonneg (sqrt a) = true := by
  rw [nonneg_iff] at ha
  rcases ha with ha | ⟨x, hx, ha⟩ <;> subst ha
  · rfl
  · show nonneg (if x < 0 then _ else _) = true
    rw [if_neg (by omega), nonneg_iff]
    right
    exact ⟨_, Int.natCast_nonneg _, rfl⟩

theorem neg_ne_nan {x : F64} (h : x ≠ F64.nan) : neg x ≠ F64.nan := by
  cases x <;> simp [neg] at h ⊢

theorem add_finite_ne_nan (k : ℤ) {x : F64} (h : x ≠ F64.nan) :
    add (F64.finite k) x ≠ F64.nan := by
  cases x with
  | finite j =>
    show ofSteps (k + j) ≠ F64.nan
    unfold ofSteps
    exact ofRatio_ne_nan _ _ _
  | nan => exact absurd rfl h
  | posInfinity => exact F64.noConfusion
  | negInfinity => exact F64.noConfusion

theorem add_ne_nan_finite (k : ℤ) {x : F64} (h : x ≠ F64.nan) :
    add x (F64.finite k) ≠ F64.nan := by
  cases x with
  | finite j =>
    show ofSteps (j + k) ≠ F64.nan
    unfold ofSteps
    exact ofRatio_ne_nan _ _ _
  | nan => exact absurd rfl h
  | posInfinity => exact F64.noConfusion
  | negInfinity => exact F64.noConfusion

theorem div_pos_ne_nan {x : F64} (h : x ≠ F64.nan) (w : ℤ) (hw : 0 < w) :
    div x (F64.finite w) ≠ F64.nan := by
  cases x with
  | finite j =>
    show (if w = 0 then _ else _) ≠ F64.nan
    rw [if_neg (by omega)]
    exact ofRatio_ne_nan _ _ _
  | nan => exact absurd rfl h
  | posInfinity => exact infinity_ne_nan _
  | negInfinity => exact infinity_ne_nan _

/-- A positive count below `2 ^ 53` is a positive finite binary64 value. -/
theorem ofNat_pos (n : ℕ) (h1 : 1 ≤ n) (h2 : n < 2 ^ 53) :
    ∃ w : ℤ, 0 < w ∧ ofNat n = F64.finite w := by
  have hq : n * stepsPerOne / 1 = n * stepsPerOne := Nat.div_one _
  have hU : stepsPerOne = 2 ^ 1074 := rfl
  have hUpos : 0 < (2 : ℕ) ^ 1074 := by positivity
  have hge : 1 ≤ n * stepsPerOne / 1 := by
    rw [hq, hU]
    exact Nat.one_le_iff_ne_zero.mpr (Nat.mul_ne_zero (by omega) (by omega))
  have hpos := roundNat_pos (n * stepsPerOne) 1 hge
  have hle := roundNat_le_twice (n * stepsPerOne) 1 hge
  rw [hq] at hle
  have hlt : roundNat (n * stepsPerOne) 1 < 2 ^ 2098 := by
    have h3 : n * stepsPerOne < 2 ^ 53 * 2 ^ 1074 := by
      rw [hU]
      exact Nat.mul_lt_mul_of_pos_right h2 hUpos
    have h4 : 2 * (2 ^ 53 * 2 ^ 1074) ≤ 2 ^ 2098 := by
      rw [← pow_add, ← pow_succ']
      exact pow_le_pow_right₀ (by norm_num) (by norm_num)
    omega
  refine ⟨(roundNat (n * stepsPerOne) 1 : ℤ), by exact_mod_cast hpos, ?_⟩
  unfold ofNat ofRatio
  rw [if_neg (by omega)]
  rfl

/-! ## Binary64 arithmetic: `Math.min` and `Math.max` over finite samples -/

theorem exists_map_finite (l : List F64) (h : ∀ s ∈ l, isFinite s = true) :
    ∃ ks : List ℤ, l = ks.map F64.finite := by
  induction l with
  | nil => exact ⟨[], rfl⟩
  | cons x rest ih =>
    obtain ⟨ks, hks⟩ := ih (fun s hs => h s (List.mem_cons_of_mem _ hs))
    have hx := h x (List.mem_cons_self _ _)
    cases x with
    | finite k => exact ⟨k :: ks, by rw [hks]; rfl⟩
    | nan => exact Bool.noConfusion hx
    | posInfinity => exact Bool.noConfusion hx
    | negInfinity => exact Bool.noConfusion hx

theorem mathMin_finite (a b : ℤ) :
    mathMin (F64.finite a) (F64.finite b) = F64.finite (min a b) := by
  unfold mathMin
  rw [if_neg (by simp)]
  by_cases h : a ≤ b
  · simp [ble, h]
  · have h' : b ≤ a := by omega
    simp [ble, h, h']

theorem mathMax_finite (a b : ℤ) :
    mathMax (F64.finite a) (F64.finite b) = F64.finite (max a b) := by
  unfold mathMax
  rw [if_neg (by simp)]
  by_cases h : a ≤ b
  · simp [ble, h]
  · have h' : b ≤ a := by omega
    simp [ble, h, h']

theorem foldl_mathMin_finite (ks : List ℤ) :
    ∀ a : ℤ, (ks.map F64.finite).foldl mathMin (F64.finite a) = F64.finite (ks.foldl min a) := by
  induction ks with
  | nil => intro a; rfl
  | cons k rest ih =>
    intro a
    rw [List.map_cons, List.foldl_cons, List.foldl_cons, mathMin_finite, ih]

theorem foldl_mathMax_finite (ks : List ℤ) :
    ∀ a : ℤ, (ks.map F64.finite).foldl mathMax (F64.finite a) = F64.finite (ks.foldl max a) := by
  induction ks with
  | nil => intro a; rfl
  | cons k rest ih =>
    intro a
    rw [List.map_cons, List.foldl_cons, List.foldl_cons, mathMax_finite, ih]

/-- `Math.min(...xs)` of finite values, the first of them `k`, is the least of them. -/
theorem mathMin_spread_finite (k : ℤ) (ks : List ℤ) :
    ((k :: ks).map F64.finite).foldl mathMin F64.posInfinity = F64.finite (ks.foldl min k) := by
  rw [List.map_cons, List.foldl_cons]
  have h : mathMin F64.posInfinity (F64.finite k) = F64.finite k := rfl
  rw [h, foldl_mathMin_finite]

/-- `Math.max(...xs)` of finite values, the first of them `k`, is the greatest of them. -/
theorem mathMax_spread_finite (k : ℤ) (ks : List ℤ) :
    ((k :: ks).map F64.finite).foldl mathMax F64.negInfinity = F64.finite (ks.foldl max k) := by
  rw [List.map_cons, List.foldl_cons]
  have h : mathMax F64.negInfinity (F64.finite k) = F64.finite k := rfl
  rw [h, foldl_mathMax_finite]

theorem ble_finite (a b : ℤ) : ble (F64.finite a) (F64.finite b) = true ↔ a ≤ b := by
  simp [ble]

/-! ## C12: the summary of the simulation in binary64 arithmetic -/

theorem foldl_add_ne_nan (ks : List ℤ) :
    ∀ acc : F64, acc ≠ F64.nan →
      (ks.map F64.finite).foldl (fun a b => add a b) acc ≠ F64.nan := by
  induction ks with
  | nil => intro acc h; exact h
  | cons k rest ih =>
    intro acc h
    rw [List.map_cons, List.foldl_cons]
    exact ih _ (add_ne_nan_finite k h)

theorem nonneg_foldl_add (f : F64 → F64) (l : List F64)
    (hf : ∀ v ∈ l, nonneg (f v) = true) :
    ∀ acc : F64, nonneg acc = true →
      nonneg (l.foldl (fun sum val => add sum (f val)) acc) = true := by
  induction l with
  | nil => intro acc h; exact h
  | cons v rest ih =>
    intro acc h
    rw [List.foldl_cons]
    exact ih (fun v' hv' => hf v' (List.mem_cons_of_mem _ hv')) _
      (nonneg_add h (hf v (List.mem_cons_self _ _)))

theorem length_simulatedScores_binary64 (gaussianRandom : Nat → ℚ) (stats1 stats2 : DashboardTeam)
    (iterations : Nat) :
    (simulatedScores gaussianRandom stats1 stats2 iterations).length = iterations := by
  simp [simulatedScores]

end Binary64

/-- C12, as stated, fails in the arithmetic of the code.  For a team with ratings 1 and 10,
a team with ratings 0, three trials and every noise draw 1, each sample is 13.2, their
sum rounds to 39.599999999999994, and the mean 13.199999999999998 is below `min`.  For a
team with ratings 0.1 and 0, three trials and every noise draw 0, each sample is 0.1, their
sum rounds to 0.30000000000000004, and the mean 0.10000000000000002 is above `max`.  For a
team with ratings 1e308 and 1e308, one trial and every noise draw 0, the sample overflows
to `Infinity`, and `stdDev` is `NaN`, which is not `>= 0`. -/
theorem mean_outside_min_max_counterexample :
    ((Binary64.runMonteCarloSimulation squareRounded (fun _ => 1) roundingTeam zeroOprTeam
        3).scores = [Binary64.ofRat 13.2, Binary64.ofRat 13.2, Binary64.ofRat 13.2] ∧
      (Binary64.runMonteCarloSimulation squareRounded (fun _ => 1) roundingTeam zeroOprTeam
        3).min = Binary64.ofRat 13.2 ∧
      (Binary64.runMonteCarloSimulation squareRounded (fun _ => 1) roundingTeam zeroOprTeam
        3).mean = Binary64.ofRat 13.199999999999998 ∧
      Binary64.ble
        (Binary64.runMonteCarloSimulation squareRounded (fun _ => 1) roundingTeam zeroOprTeam
          3).min
        (Binary64.runMonteCarloSimulation squareRounded (fun _ => 1) roundingTeam zeroOprTeam
          3).mean = false) ∧
    ((Binary64.runMonteCarloSimulation squareRounded (fun _ => 0) tenthTeam zeroOprTeam
        3).scores = [Binary64.ofRat 0.1, Binary64.ofRat 0.1, Binary64.ofRat 0.1] ∧
      (Binary64.runMonteCarloSimulation squareRounded (fun _ => 0) tenthTeam zeroOprTeam
        3).max = Binary64.ofRat 0.1 ∧
      (Binary64.runMonteCarloSimulation squareRounded (fun _ => 0) tenthTeam zeroOprTeam
        3).mean = Binary64.ofRat 0.10000000000000002 ∧
      Binary64.ble
        (Binary64.runMonteCarloSimulation squareRounded (fun _ => 0) tenthTeam zeroOprTeam
          3).mean
        (Binary64.runMonteCarloSimulation squareRounded (fun _ => 0) tenthTeam zeroOprTeam
          3).max = false) ∧
    (Binary64.runMonteCarloSimulation squareRounded (fun _ => 0) hugeTeam zeroOprTeam 1 =
        { mean := Binary64.F64.posInfinity
          stdDev := Binary64.F64.nan
          min := Binary64.F64.posInfinity
          max := Binary64.F64.posInfinity
          scores := [Binary64.F64.posInfinity] } ∧
      Binary64.nonneg
        (Binary64.runMonteCarloSimulation squareRounded (fun _ => 0) hugeTeam zeroOprTeam
          1).stdDev = false) := by
  decide!

/-- C12 (amended): for every pair of teams, every trial count `N` from 1 up to the length
an array can have, and every sequence of noise draws for which every sample is finite,
`runMonteCarloSimulation` returns the `N` samples; `mean` is their sum, added up from 0
in array order, divided by `N`, and `stdDev` is `Math.sqrt` of the sum of the
`Math.pow(sample - mean, 2)` divided by `N` (not `N - 1`), every operation rounded to
binary64; `min` and `max` are the least and greatest sample; and `stdDev >= 0`, neither
`mean` nor `stdDev` being `NaN`.  (`Math.pow(x, 2)` is any function that is `>= 0` where
`x` is not `NaN`; that `mean` lies between `min` and `max` is not part of the statement:
it holds only up to rounding.) -/
theorem simulation_summary_binary64 (mathPow : Binary64.F64 → Binary64.F64 → Binary64.F64)
    (gaussianRandom : Nat → ℚ) (stats1 stats2 : DashboardTeam) (iterations : Nat)
    (hN : 1 ≤ iterations) (hlen : iterations < 2 ^ 32)
    (hfin : ∀ s ∈ Binary64.simulatedScores gaussianRandom stats1 stats2 iterations,
      Binary64.isFinite s = true)
    (hpow : ∀ x : Binary64.F64, x ≠ Binary64.F64.nan →
      Binary64.nonneg (mathPow x (Binary64.ofNat 2)) = true) :
    ∃ r, Binary64.runMonteCarloSimulation mathPow gaussianRandom stats1 stats2 iterations = r ∧
      r.scores = Binary64.simulatedScores gaussianRandom stats1 stats2 iterations ∧
      r.scores.length = iterations ∧
      r.mean =
        Binary64.div (r.scores.foldl (fun a b => Binary64.add a b) (Binary64.ofNat 0))
          (Binary64.ofNat iterations) ∧
      r.stdDev =
        Binary64.sqrt
          (Binary64.div
            (r.scores.foldl
              (fun sum val =>
                Binary64.add sum (mathPow (Binary64.sub val r.mean) (Binary64.ofNat 2)))
              (Binary64.ofNat 0))
            (Binary64.ofNat iterations)) ∧
      r.min ∈ r.scores ∧ (∀ s ∈ r.scores, Binary64.ble r.min s = true) ∧
      r.max ∈ r.scores ∧ (∀ s ∈ r.scores, Binary64.ble s r.max = true) ∧
      r.mean ≠ Binary64.F64.nan ∧ Binary64.nonneg r.stdDev = true := by
  obtain ⟨ks, hks⟩ := Binary64.exists_map_finite _ hfin
  have hlenks : ks.length = iterations := by
    have := Binary64.length_simulatedScores_binary64 gaussianRandom stats1 stats2 iterations
    rw [hks, List.length_map] at this
    exact this
  obtain ⟨w, hw, hwN⟩ := Binary64.ofNat_pos iterations hN
    (lt_of_lt_of_le hlen (Nat.pow_le_pow_right (by norm_num) (by norm_num)))
  cases ks with
  | nil => simp at hlenks; omega
  | cons k rest =>
    have hzero : Binary64.ofNat 0 ≠ Binary64.F64.nan := Binary64.ofRatio_ne_nan _ _ _
    have hzero' : Binary64.nonneg (Binary64.ofNat 0) = true :=
      Binary64.nonneg_ofRatio_false _ _
    have hmean : Binary64.div
        (((k :: rest).map Binary64.F64.finite).foldl (fun a b => Binary64.add a b)
          (Binary64.ofNat 0)) (Binary64.ofNat iterations) ≠ Binary64.F64.nan := by
      rw [hwN]
      exact Binary64.div_pos_ne_nan (Binary64.foldl_add_ne_nan _ _ hzero) w hw
    refine ⟨_, rfl, rfl, Binary64.length_simulatedScores_binary64 _ _ _ _, rfl, rfl, ?_, ?_, ?_, ?_,
      ?_, ?_⟩
    · show ((Binary64.simulatedScores gaussianRandom stats1 stats2 iterations).foldl
        Binary64.mathMin Binary64.F64.posInfinity) ∈
          Binary64.simulatedScores gaussianRandom stats1 stats2 iterations
      rw [hks, Binary64.mathMin_spread_finite]
      exact List.mem_map_of_mem _ (foldl_min_mem rest k)
    · intro s hs
      have hs' : s ∈ Binary64.simulatedScores gaussianRandom stats1 stats2 iterations := hs
      show Binary64.ble ((Binary64.simulatedScores gaussianRandom stats1 stats2
        iterations).foldl Binary64.mathMin Binary64.F64.posInfinity) s = true
      rw [hks] at hs' ⊢
      obtain ⟨j, hj, hjs⟩ := List.mem_map.mp hs'
      rw [Binary64.mathMin_spread_finite, ← hjs, Binary64.ble_finite]
      exact foldl_min_le_mem rest k j hj
    · show ((Binary64.simulatedScores gaussianRandom stats1 stats2 iterations).foldl
        Binary64.mathMax Binary64.F64.negInfinity) ∈
          Binary64.simulatedScores gaussianRandom stats1 stats2 iterations
      rw [hks, Binary64.mathMax_spread_finite]
      exact List.mem_map_of_mem _ (foldl_max_mem rest k)
    · intro s hs
      have hs' : s ∈ Binary64.simulatedScores gaussianRandom stats1 stats2 iterations := hs
      show Binary64.ble s ((Binary64.simulatedScores gaussianRandom stats1 stats2
        iterations).foldl Binary64.mathMax Binary64.F64.negInfinity) = true
      rw [hks] at hs' ⊢
      obtain ⟨j, hj, hjs⟩ := List.mem_map.mp hs'
      rw [Binary64.mathMax_spread_finite, ← hjs, Binary64.ble_finite]
      exact mem_le_foldl_max rest k j hj
    · show Binary64.div ((Binary64.simulatedScores gaussianRandom stats1 stats2
        iterations).foldl (fun a b => Binary64.add a b) (Binary64.ofNat 0))
          (Binary64.ofNat iterations) ≠ Binary64.F64.nan
      rw [hks]
      exact hmean
    · show Binary64.nonneg (Binary64.sqrt (Binary64.div
        ((Binary64.simulatedScores gaussianRandom stats1 stats2 iterations).foldl
          (fun sum val => Binary64.add sum (mathPow (Binary64.sub val
            (Binary64.div ((Binary64.simulatedScores gaussianRandom stats1 stats2
              iterations).foldl (fun a b => Binary64.add a b) (Binary64.ofNat 0))
              (Binary64.ofNat iterations))) (Binary64.ofNat 2)))
          (Binary64.ofNat 0)) (Binary64.ofNat iterations))) = true
      rw [hks]
      apply Binary64.nonneg_sqrt
      rw [hwN] at hmean ⊢
      apply Binary64.nonneg_div_pos _ w hw
      apply Binary64.nonneg_foldl_add _ _ _ _ hzero'
      intro v hv
      obtain ⟨j, -, hjv⟩ := List.mem_map.mp hv
      apply hpow
      rw [← hjv]
      exact Binary64.add_finite_ne_nan j (Binary64.neg_ne_nan hmean)

theorem nonneg_squareRounded (x y : Binary64.F64) (hx : x ≠ Binary64.F64.nan) :
    Binary64.nonneg (squareRounded x y) = true := by
  cases x with
  | finite a =>
    have e : squareRounded (Binary64.F64.finite a) y =
        Binary64.ofRatio (decide ((a < 0) ≠ (a < 0))) (a.natAbs * a.natAbs)
          Binary64.stepsPerOne := rfl
    have hs : decide ((a < 0) ≠ (a < 0)) = false := decide_eq_false (by simp)
    rw [e, hs]
    exact Binary64.nonneg_ofRatio_false _ _
  | nan => exact absurd rfl hx
  | posInfinity => rfl
  | negInfinity => rfl

/-- C12 (amended), at a concrete input: a team with `opr.auto = 10`, a team with ratings 0,
three trials and noise draws `0, 5/4, 5/2, ...`, so that the samples are 10, 20, 30; the
result is mean 20, stdDev 8.16496580927726, min 10, max 30. -/
theorem simulation_summary_binary64_witness :
    Binary64.runMonteCarloSimulation squareRounded (fun k => 5 * (k : ℚ) / 4) autoOnlyTeam
        zeroOprTeam 3 =
      { mean := Binary64.ofRat 20
        stdDev := Binary64.ofRat 8.16496580927726
        min := Binary64.ofRat 10
        max := Binary64.ofRat 30
        scores := [Binary64.ofRat 10, Binary64.ofRat 20, Binary64.ofRat 30] } ∧
    ∃ r, Binary64.runMonteCarloSimulation squareRounded (fun k => 5 * (k : ℚ) / 4)
        autoOnlyTeam zeroOprTeam 3 = r ∧
      r.scores = Binary64.simulatedScores (fun k => 5 * (k : ℚ) / 4) autoOnlyTeam zeroOprTeam 3 ∧
      r.scores.length = 3 ∧
      r.mean =
        Binary64.div (r.scores.foldl (fun a b => Binary64.add a b) (Binary64.ofNat 0))
          (Binary64.ofNat 3) ∧
      r.stdDev =
        Binary64.sqrt
          (Binary64.div
            (r.scores.foldl
              (fun sum val =>
                Binary64.add sum (squareRounded (Binary64.sub val r.mean) (Binary64.ofNat 2)))
              (Binary64.ofNat 0))
            (Binary64.ofNat 3)) ∧
      r.min ∈ r.scores ∧ (∀ s ∈ r.scores, Binary64.ble r.min s = true) ∧
      r.max ∈ r.scores ∧ (∀ s ∈ r.scores, Binary64.ble s r.max = true) ∧
      r.mean ≠ Binary64.F64.nan ∧ Binary64.nonneg r.stdDev = true :=
  ⟨by decide!,
   simulation_summary_binary64 squareRounded (fun k => 5 * (k : ℚ) / 4) autoOnlyTeam
     zeroOprTeam 3 (by decide) (by decide) (by decide!)
     (fun x hx => nonneg_squareRounded x _ hx)⟩

/-! ## C13: the histogram in binary64 arithmetic -/

namespace Binary64

theorem stepsPerOne_pos : (0 : ℤ) < (stepsPerOne : ℤ) := by
  have h : 0 < stepsPerOne := by
    unfold stepsPerOne
    positivity
  exact_mod_cast h

theorem incrementBin_whole (bins : List Nat) (j : ℕ) (hj : j < bins.length) :
    incrementBin bins (F64.finite ((j : ℤ) * (stepsPerOne : ℤ))) = incrementAt bins j := by
  have hU := stepsPerOne_pos
  have h1 : (j : ℤ) * (stepsPerOne : ℤ) % (stepsPerOne : ℤ) = 0 := Int.mul_emod_left _ _
  have h2 : (j : ℤ) * (stepsPerOne : ℤ) / (stepsPerOne : ℤ) = (j : ℤ) :=
    Int.mul_ediv_cancel _ (ne_of_gt hU)
  have h0 : (0 : ℤ) ≤ (j : ℤ) * (stepsPerOne : ℤ) :=
    Int.mul_nonneg (Int.natCast_nonneg _) hU.le
  simp only [incrementBin, h1, h2, Int.toNat_natCast]
  rw [if_pos ⟨h0, trivial, hj⟩]

/-- The statement `bins[binIndex]++` either leaves the elements alone or increments the
element whose index `binIndex` is. -/
theorem incrementBin_cases (bins : List Nat) (x : F64) :
    (incrementBin bins x = bins ∧
      ∀ j : ℕ, j < bins.length → x ≠ F64.finite ((j : ℤ) * (stepsPerOne : ℤ))) ∨
    ∃ j : ℕ, j < bins.length ∧ x = F64.finite ((j : ℤ) * (stepsPerOne : ℤ)) ∧
      incrementBin bins x = incrementAt bins j := by
  have hU := stepsPerOne_pos
  cases x with
  | finite k =>
    by_cases hc : 0 ≤ k ∧ k % (stepsPerOne : ℤ) = 0 ∧
        (k / (stepsPerOne : ℤ)).toNat < bins.length
    · right
      have hdiv : 0 ≤ k / (stepsPerOne : ℤ) := Int.ediv_nonneg hc.1 hU.le
      have hk : k = ((k / (stepsPerOne : ℤ)).toNat : ℤ) * (stepsPerOne : ℤ) := by
        rw [Int.toNat_of_nonneg hdiv]
        exact (Int.ediv_mul_cancel (Int.dvd_of_emod_eq_zero hc.2.1)).symm
      refine ⟨(k / (stepsPerOne : ℤ)).toNat, hc.2.2, congrArg F64.finite hk, ?_⟩
      simp only [incrementBin]
      rw [if_pos hc]
    · left
      refine ⟨by simp only [incrementBin]; rw [if_neg hc], ?_⟩
      intro j hj hx
      apply hc
      have hkj : k = (j : ℤ) * (stepsPerOne : ℤ) := F64.finite.inj hx
      subst hkj
      refine ⟨Int.mul_nonneg (Int.natCast_nonneg _) hU.le, Int.mul_emod_left _ _, ?_⟩
      rw [Int.mul_ediv_cancel _ (ne_of_gt hU), Int.toNat_natCast]
      exact hj
  | nan => left; exact ⟨rfl, fun j _ h => F64.noConfusion h⟩
  | posInfinity => left; exact ⟨rfl, fun j _ h => F64.noConfusion h⟩
  | negInfinity => left; exact ⟨rfl, fun j _ h => F64.noConfusion h⟩

theorem length_incrementBin (bins : List Nat) (x : F64) :
    (incrementBin bins x).length = bins.length := by
  rcases incrementBin_cases bins x with ⟨h, -⟩ | ⟨j, -, -, h⟩
  · rw [h]
  · rw [h, length_incrementAt]

theorem whole_injective {i j : ℕ}
    (h : F64.finite ((i : ℤ) * (stepsPerOne : ℤ)) = F64.finite ((j : ℤ) * (stepsPerOne : ℤ))) :
    i = j := by
  have h1 : (i : ℤ) * (stepsPerOne : ℤ) = (j : ℤ) * (stepsPerOne : ℤ) := F64.finite.inj h
  have h2 : (i : ℤ) = (j : ℤ) := Int.eq_of_mul_eq_mul_right (ne_of_gt stepsPerOne_pos) h1
  exact_mod_cast h2

theorem getD_incrementBin (bins : List Nat) (x : F64) (k : Nat) (hk : k < bins.length) :
    (incrementBin bins x).getD k 0 =
      bins.getD k 0 + (if x = F64.finite ((k : ℤ) * (stepsPerOne : ℤ)) then 1 else 0) := by
  rcases incrementBin_cases bins x with ⟨h, hne⟩ | ⟨j, hj, hx, h⟩
  · rw [h, if_neg (hne k hk), add_zero]
  · rw [h, getD_incrementAt, hx]
    by_cases hjk : j = k
    · subst hjk
      simp [hk]
    · have hne : F64.finite ((j : ℤ) * (stepsPerOne : ℤ)) ≠
          F64.finite ((k : ℤ) * (stepsPerOne : ℤ)) := fun he => hjk (whole_injective he)
      rw [if_neg (fun hh => hjk hh.1), if_neg hne]

theorem length_foldl_incrementBin (f : F64 → F64) (l : List F64) :
    ∀ bins : List Nat,
      (l.foldl (fun bins score => incrementBin bins (f score)) bins).length = bins.length := by
  induction l with
  | nil => intro bins; rfl
  | cons s rest ih => intro bins; rw [List.foldl_cons, ih, length_incrementBin]

/-- After the `forEach`, element `k` of `bins` has grown by the number of samples whose
`binIndex` is `k`. -/
theorem getD_foldl_incrementBin (f : F64 → F64) (l : List F64) :
    ∀ (bins : List Nat) (k : Nat), k < bins.length →
      (l.foldl (fun bins score => incrementBin bins (f score)) bins).getD k 0 =
        bins.getD k 0 +
          l.countP (fun s => decide (f s = F64.finite ((k : ℤ) * (stepsPerOne : ℤ)))) := by
  induction l with
  | nil => intro bins k _; simp
  | cons s rest ih =>
    intro bins k hk
    rw [List.foldl_cons, ih _ k (by rw [length_incrementBin]; exact hk),
      getD_incrementBin bins (f s) k hk, List.countP_cons]
    by_cases h : f s = F64.finite ((k : ℤ) * (stepsPerOne : ℤ))
    · simp [h]; omega
    · simp [h]

theorem sum_foldl_incrementBin (f : F64 → F64) (l : List F64) :
    ∀ bins : List Nat,
      (∀ s ∈ l, ∃ j : Nat, j < bins.length ∧
        f s = F64.finite ((j : ℤ) * (stepsPerOne : ℤ))) →
      (l.foldl (fun bins score => incrementBin bins (f score)) bins).sum =
        bins.sum + l.length := by
  induction l with
  | nil => intro bins _; simp
  | cons s rest ih =>
    intro bins h
    obtain ⟨j, hj, hfs⟩ := h s (List.mem_cons_self _ _)
    have hstep : incrementBin bins (f s) = incrementAt bins j := by
      rw [hfs]; exact incrementBin_whole bins j hj
    rw [List.foldl_cons, ih, hstep, sum_incrementAt bins j hj, List.length_cons]
    · omega
    · intro s' hs'
      obtain ⟨j', hj', hfs'⟩ := h s' (List.mem_cons_of_mem _ hs')
      exact ⟨j', by rw [length_incrementBin]; exact hj', hfs'⟩

/-- The constant `binCount` is 20. -/
theorem ofNat_binCount : ofNat binCount = F64.finite ((20 * stepsPerOne : ℕ) : ℤ) := by
  decide!

/-- The operand `binCount - 1` is 19. -/
theorem lastBin_eq :
    sub (ofNat binCount) (ofNat 1) = F64.finite (((19 : ℕ) : ℤ) * (stepsPerOne : ℤ)) := by
  decide!

/-- A rounded quotient of at least 10 steps is at most 20/19 of the exact quotient. -/
theorem roundNat_mul_le (n d : ℕ) (hr : 10 ≤ roundNat n d) :
    19 * (roundNat n d * d) ≤ 20 * n := by
  have hlo : n / d / 2 ^ shiftFor (n / d) * 2 ^ shiftFor (n / d) ≤ n / d :=
    Nat.div_mul_le_self _ _
  have hq : n / d * d ≤ n := Nat.div_mul_le_self _ _
  have hlod : n / d / 2 ^ shiftFor (n / d) * 2 ^ shiftFor (n / d) * d ≤ n :=
    le_trans (Nat.mul_le_mul_right d hlo) hq
  rcases roundNat_cases n d with h | ⟨h, hhalf⟩
  · rw [h]
    omega
  · have hnine : 9 * 2 ^ shiftFor (n / d) ≤
        n / d / 2 ^ shiftFor (n / d) * 2 ^ shiftFor (n / d) := by
      rcases shiftFor_spec (n / d) with h0 | hbig
      · rw [h0] at h ⊢
        simp only [pow_zero, Nat.div_one, mul_one] at h ⊢
        omega
      · have h52 : 2 ^ 52 ≤ n / d / 2 ^ shiftFor (n / d) := by
          rw [Nat.le_div_iff_mul_le (Nat.pos_pow_of_pos _ (by norm_num)), ← pow_add]
          exact hbig
        have h9 : 9 ≤ n / d / 2 ^ shiftFor (n / d) := le_trans (by norm_num) h52
        exact Nat.mul_le_mul_right _ h9
    have hnined := Nat.mul_le_mul_right d hnine
    rw [h, Nat.add_mul]
    rw [Nat.mul_assoc] at hnined
    omega

/-- A quotient of at least 19 rounds to at least 19. -/
theorem le_roundNat_last (n d : ℕ) (hd : 0 < d) (h : 19 * stepsPerOne * d ≤ n) :
    19 * stepsPerOne ≤ roundNat n d := by
  have hU : stepsPerOne = 2 ^ 1074 := rfl
  have hq : 19 * stepsPerOne ≤ n / d := (Nat.le_div_iff_mul_le hd).mpr h
  refine le_trans ?_ (roundNat_lower n d)
  generalize n / d = q at hq ⊢
  have hpos : 0 < 2 ^ shiftFor q := Nat.pos_pow_of_pos _ (by norm_num)
  by_cases hs : shiftFor q ≤ 1074
  · have hsplit : 19 * stepsPerOne = 19 * 2 ^ (1074 - shiftFor q) * 2 ^ shiftFor q := by
      rw [hU, Nat.mul_assoc, ← pow_add, Nat.sub_add_cancel hs]
    rw [hsplit] at hq ⊢
    exact Nat.mul_le_mul_right _ ((Nat.le_div_iff_mul_le hpos).mpr hq)
  · rcases shiftFor_spec q with h0 | hbig
    · omega
    · have h52 : 2 ^ 52 ≤ q / 2 ^ shiftFor q := by
        rw [Nat.le_div_iff_mul_le hpos, ← pow_add]
        exact hbig
      obtain ⟨t, ht⟩ : ∃ t, shiftFor q = 1074 + (t + 1) := ⟨shiftFor q - 1075, by omega⟩
      have hpow : 2 ^ shiftFor q = stepsPerOne * (2 ^ t * 2) := by
        rw [ht, pow_add, pow_succ 2 t, hU]
      have ht1 : 1 ≤ 2 ^ t := Nat.one_le_two_pow
      have hsmall : 19 * stepsPerOne ≤ 2 ^ 52 * 2 ^ shiftFor q := by
        rw [hpow]
        have hmono : stepsPerOne * (1 * 2) ≤ stepsPerOne * (2 ^ t * 2) :=
          Nat.mul_le_mul_left _ (Nat.mul_le_mul_right _ ht1)
        have hmono2 := Nat.mul_le_mul_left (2 ^ 52) hmono
        generalize stepsPerOne * (2 ^ t * 2) = big at hmono hmono2 ⊢
        generalize stepsPerOne = P at hmono hmono2 ⊢
        omega
      exact le_trans hsmall (Nat.mul_le_mul_right _ h52)

theorem infinity_ne_finite (negative : Bool) (k : ℤ) : infinity negative ≠ F64.finite k := by
  cases negative <;> simp [infinity]

theorem sub_finite (a b : ℤ) : sub (F64.finite a) (F64.finite b) = ofSteps (a - b) := by
  show ofSteps (a + -b) = ofSteps (a - b)
  rw [Int.sub_eq_add_neg]

theorem ofSteps_nonneg_cases (k : ℤ) (hk : 0 ≤ k) :
    ofSteps k = F64.posInfinity ∨ ofSteps k = F64.finite (roundNat k.natAbs 1) := by
  rw [ofSteps_of_nonneg k hk]
  exact ofRatio_false_cases _ _

theorem div_finite_pos (a w : ℤ) (ha : 0 ≤ a) (hw : 0 < w) :
    div (F64.finite a) (F64.finite w) = ofRatio false (a.natAbs * stepsPerOne) w.natAbs := by
  show (if w = 0 then _ else
    ofRatio (decide ((a < 0) ≠ (w < 0))) (a.natAbs * stepsPerOne) w.natAbs) = _
  rw [if_neg (by omega)]
  have hs : decide ((a < 0) ≠ (w < 0)) = false := by
    apply decide_eq_false
    simp only [ne_eq, not_not, eq_iff_iff]
    constructor <;> intro h <;> omega
  rw [hs]

theorem shiftFor_zero : shiftFor 0 = 0 := by
  decide!

theorem roundNat_zero (d : ℕ) : roundNat 0 d = 0 := by
  unfold roundNat
  simp only [Nat.zero_div, shiftFor_zero, pow_zero, Nat.div_one, Nat.zero_mul, Nat.sub_zero,
    Nat.mul_zero, Nat.one_mul, Nat.zero_mod, if_true, Nat.zero_add]
  split_ifs <;> first | rfl | omega

/-- The clamped floor of a number that is `>= 0` is one of 0, ..., 19. -/
theorem clamp_floor_of_nonneg (x : F64) (hx : nonneg x = true) :
    ∃ j : ℕ, j < 20 ∧
      mathMin (floor x) (F64.finite (((19 : ℕ) : ℤ) * (stepsPerOne : ℤ))) =
        F64.finite ((j : ℤ) * (stepsPerOne : ℤ)) := by
  rw [nonneg_iff] at hx
  rcases hx with hx | ⟨k, hk, hx⟩ <;> subst hx
  · exact ⟨19, by norm_num, by simp [floor, mathMin, ble]⟩
  · have hU := stepsPerOne_pos
    have hm : 0 ≤ k / (stepsPerOne : ℤ) := Int.ediv_nonneg hk hU.le
    have hfloor : floor (F64.finite k) =
        F64.finite (k / (stepsPerOne : ℤ) * (stepsPerOne : ℤ)) := rfl
    rw [hfloor, mathMin_finite, ← min_mul_of_nonneg _ _ hU.le]
    refine ⟨(min (k / (stepsPerOne : ℤ)) ((19 : ℕ) : ℤ)).toNat, ?_, ?_⟩
    · have h1 : min (k / (stepsPerOne : ℤ)) ((19 : ℕ) : ℤ) ≤ ((19 : ℕ) : ℤ) := min_le_right _ _
      omega
    · rw [Int.toNat_of_nonneg (le_min hm (Int.natCast_nonneg _))]

/-- The clamped floor of a number that is `>= 19` is 19. -/
theorem clamp_floor_last (x : F64)
    (hx : x = F64.posInfinity ∨
      ∃ k : ℤ, ((19 : ℕ) : ℤ) * (stepsPerOne : ℤ) ≤ k ∧ x = F64.finite k) :
    mathMin (floor x) (F64.finite (((19 : ℕ) : ℤ) * (stepsPerOne : ℤ))) =
      F64.finite (((19 : ℕ) : ℤ) * (stepsPerOne : ℤ)) := by
  rcases hx with hx | ⟨k, hk, hx⟩ <;> subst hx
  · simp [floor, mathMin, ble]
  · have hU := stepsPerOne_pos
    have hm : ((19 : ℕ) : ℤ) ≤ k / (stepsPerOne : ℤ) := (Int.le_ediv_iff_mul_le hU).mpr hk
    have hfloor : floor (F64.finite k) =
        F64.finite (k / (stepsPerOne : ℤ) * (stepsPerOne : ℤ)) := rfl
    rw [hfloor, mathMin_finite, ← min_mul_of_nonneg _ _ hU.le, min_eq_right hm]

/-- With a finite positive `binWidth`, the `binIndex` of a sample that is at least `min`
is one of 0, ..., 19. -/
theorem binIndex_in_range (lo w j : ℤ) (hw : 0 < w) (hj : lo ≤ j) :
    ∃ i : ℕ, i < 20 ∧
      binIndex (F64.finite lo) (F64.finite w) (F64.finite j) =
        F64.finite ((i : ℤ) * (stepsPerOne : ℤ)) := by
  unfold binIndex
  rw [lastBin_eq]
  apply clamp_floor_of_nonneg
  apply nonneg_div_pos _ w hw
  rw [sub_finite, ofSteps_of_nonneg _ (by omega)]
  exact nonneg_ofRatio_false _ _

/-- The array `bins` with `min` and `binWidth` given by their values. -/
theorem histogramBins_eq (allianceScores : List F64) (lo w : ℤ)
    (hmin : allianceScores.foldl mathMin F64.posInfinity = F64.finite lo)
    (hwidth : div (sub (allianceScores.foldl mathMax F64.negInfinity)
      (allianceScores.foldl mathMin F64.posInfinity)) (ofNat binCount) = F64.finite w) :
    histogramBins allianceScores =
      allianceScores.foldl
        (fun bins score => incrementBin bins (binIndex (F64.finite lo) (F64.finite w) score))
        (List.replicate binCount 0) := by
  unfold histogramBins
  simp only []
  rw [hwidth, hmin]

end Binary64

/-- C13, as stated, fails in the arithmetic of the code.  For the samples 0 and 5e-324 the
maximum is greater than the minimum, `binWidth` underflows to 0, the `binIndex` of the
sample 0 is `NaN`, and the bins sum to 1, not 2.  For the samples 0 and 1.5e-322 the
`binWidth` rounds from 1.5 steps of `2 ^ (-1074)` to 2 steps, and the maximum sample is
counted in bin 15, not in bin 19. -/
theorem histogram_subnormal_counterexample :
    (Binary64.ofRat 0 = Binary64.F64.finite 0 ∧
      Binary64.ofRat 5e-324 = Binary64.F64.finite 1 ∧
      Binary64.div (Binary64.sub (Binary64.ofRat 5e-324) (Binary64.ofRat 0))
        (Binary64.ofNat binCount) = Binary64.F64.finite 0 ∧
      Binary64.binIndex (Binary64.ofRat 0) (Binary64.F64.finite 0) (Binary64.ofRat 0) =
        Binary64.F64.nan ∧
      Binary64.histogramBins [Binary64.ofRat 0, Binary64.ofRat 5e-324] =
        [0, 0, 0, 0, 0, 0, 0, 0, 0, 0, 0, 0, 0, 0, 0, 0, 0, 0, 0, 1] ∧
      (Binary64.histogramBins [Binary64.ofRat 0, Binary64.ofRat 5e-324]).sum ≠
        [Binary64.ofRat 0, Binary64.ofRat 5e-324].length) ∧
    (Binary64.ofRat 1.5e-322 = Binary64.F64.finite 30 ∧
      Binary64.div (Binary64.sub (Binary64.ofRat 1.5e-322) (Binary64.ofRat 0))
        (Binary64.ofNat binCount) = Binary64.F64.finite 2 ∧
      Binary64.binIndex (Binary64.ofRat 0) (Binary64.F64.finite 2) (Binary64.ofRat 1.5e-322) =
        Binary64.F64.finite (((15 : ℕ) : ℤ) * (Binary64.stepsPerOne : ℤ)) ∧
      Binary64.histogramBins [Binary64.ofRat 0, Binary64.ofRat 1.5e-322] =
        [1, 0, 0, 0, 0, 0, 0, 0, 0, 0, 0, 0, 0, 0, 0, 1, 0, 0, 0, 0]) := by
  decide!

/-- C13 (amended): for every sequence of finite samples for which `binWidth`, as the code
computes it, `(max - min) / binCount` rounded to binary64, is a positive finite number
(so that the maximum is strictly greater than the minimum), the array `bins` has 20
elements that sum exactly to the number of samples; the `binIndex` of every sample is
one of 0, ..., 19; element `k` counts the samples whose `binIndex` is `k`; and when
`binWidth` is at least 10 steps of `2 ^ (-1074)` the `binIndex` of the maximum sample is
19, so that it is counted in bin 19. -/
theorem histogram_counts_binary64 (allianceScores : List Binary64.F64) (w : ℤ)
    (hfin : ∀ s ∈ allianceScores, Binary64.isFinite s = true)
    (hwidth : Binary64.div
      (Binary64.sub (allianceScores.foldl Binary64.mathMax Binary64.F64.negInfinity)
        (allianceScores.foldl Binary64.mathMin Binary64.F64.posInfinity))
      (Binary64.ofNat binCount) = Binary64.F64.finite w)
    (hw : 0 < w) :
    ∃ lo hi : ℤ,
      allianceScores.foldl Binary64.mathMin Binary64.F64.posInfinity = Binary64.F64.finite lo ∧
      allianceScores.foldl Binary64.mathMax Binary64.F64.negInfinity = Binary64.F64.finite hi ∧
      lo < hi ∧ Binary64.F64.finite hi ∈ allianceScores ∧
      (Binary64.histogramBins allianceScores).length = 20 ∧
      (Binary64.histogramBins allianceScores).sum = allianceScores.length ∧
      (∀ s ∈ allianceScores, ∃ i : ℕ, i < 20 ∧
        Binary64.binIndex (Binary64.F64.finite lo) (Binary64.F64.finite w) s =
          Binary64.F64.finite ((i : ℤ) * (Binary64.stepsPerOne : ℤ))) ∧
      (∀ k : ℕ, k < 20 → (Binary64.histogramBins allianceScores).getD k 0 =
        allianceScores.countP (fun s => decide
          (Binary64.binIndex (Binary64.F64.finite lo) (Binary64.F64.finite w) s =
            Binary64.F64.finite ((k : ℤ) * (Binary64.stepsPerOne : ℤ))))) ∧
      (10 ≤ w →
        Binary64.binIndex (Binary64.F64.finite lo) (Binary64.F64.finite w)
            (Binary64.F64.finite hi) =
          Binary64.F64.finite (((19 : ℕ) : ℤ) * (Binary64.stepsPerOne : ℤ)) ∧
        1 ≤ (Binary64.histogramBins allianceScores).getD 19 0) := by
  obtain ⟨ks, hks⟩ := Binary64.exists_map_finite _ hfin
  subst hks
  cases ks with
  | nil =>
    exfalso
    simp only [List.map_nil, List.foldl_nil] at hwidth
    rw [Binary64.ofNat_binCount] at hwidth
    exact Binary64.infinity_ne_finite _ _ hwidth
  | cons k rest =>
    have hmin := Binary64.mathMin_spread_finite k rest
    have hmax := Binary64.mathMax_spread_finite k rest
    have hwidth0 := hwidth
    have hlohi : rest.foldl min k ≤ rest.foldl max k :=
      le_trans (foldl_min_le_init rest k) (init_le_foldl_max rest k)
    have hU : 0 < Binary64.stepsPerOne := by exact_mod_cast Binary64.stepsPerOne_pos
    have h20 : (0 : ℤ) < ((20 * Binary64.stepsPerOne : ℕ) : ℤ) := by
      exact_mod_cast Nat.mul_pos (by norm_num) hU
    rw [hmin, hmax, Binary64.sub_finite, Binary64.ofNat_binCount] at hwidth
    rcases Binary64.ofSteps_nonneg_cases (rest.foldl max k - rest.foldl min k) (by omega)
      with h1 | h1
    · exfalso
      rw [h1] at hwidth
      exact Binary64.infinity_ne_finite _ _ hwidth
    · rw [h1, Binary64.div_finite_pos _ _ (Int.natCast_nonneg _) h20, Int.natAbs_ofNat,
        Int.natAbs_ofNat] at hwidth
      rcases Binary64.ofRatio_false_cases
        (Binary64.roundNat (rest.foldl max k - rest.foldl min k).natAbs 1 *
          Binary64.stepsPerOne) (20 * Binary64.stepsPerOne) with h2 | h2
      · exfalso
        rw [h2] at hwidth
        exact Binary64.F64.noConfusion hwidth
      · rw [h2] at hwidth
        have hwn : ((Binary64.roundNat
            (Binary64.roundNat (rest.foldl max k - rest.foldl min k).natAbs 1 *
              Binary64.stepsPerOne) (20 * Binary64.stepsPerOne) : ℕ) : ℤ) = w :=
          Binary64.F64.finite.inj hwidth
        have hbins := Binary64.histogramBins_eq _ _ _ hmin hwidth0
        have hidx : ∀ s ∈ (k :: rest).map Binary64.F64.finite, ∃ i : ℕ, i < 20 ∧
            Binary64.binIndex (Binary64.F64.finite (rest.foldl min k)) (Binary64.F64.finite w) s =
              Binary64.F64.finite ((i : ℤ) * (Binary64.stepsPerOne : ℤ)) := by
          intro s hs
          obtain ⟨j, hj, hjs⟩ := List.mem_map.mp hs
          rw [← hjs]
          exact Binary64.binIndex_in_range _ w j hw (foldl_min_le_mem rest k j hj)
        have hgetD : ∀ k' : ℕ, k' < 20 →
            (Binary64.histogramBins ((k :: rest).map Binary64.F64.finite)).getD k' 0 =
              ((k :: rest).map Binary64.F64.finite).countP (fun s => decide
                (Binary64.binIndex (Binary64.F64.finite (rest.foldl min k))
                  (Binary64.F64.finite w) s =
                  Binary64.F64.finite ((k' : ℤ) * (Binary64.stepsPerOne : ℤ)))) := by
          intro k' hk'
          rw [hbins, Binary64.getD_foldl_incrementBin _ _ _ k'
            (by rw [List.length_replicate]; exact hk'), getD_replicate_zero, Nat.zero_add]
        have hhi : Binary64.F64.finite (rest.foldl max k) ∈
            (k :: rest).map Binary64.F64.finite :=
          List.mem_map_of_mem _ (foldl_max_mem rest k)
        have hlt : rest.foldl min k < rest.foldl max k := by
          rcases lt_or_eq_of_le hlohi with h | h
          · exact h
          · exfalso
            simp only [h, sub_self, Int.natAbs_zero, Binary64.roundNat_zero, Nat.zero_mul,
              Nat.cast_zero] at hwn
            omega
        refine ⟨rest.foldl min k, rest.foldl max k, hmin, hmax, hlt, hhi, ?_, ?_, hidx, hgetD, ?_⟩
        · rw [hbins, Binary64.length_foldl_incrementBin, List.length_replicate]
          rfl
        · rw [hbins, Binary64.sum_foldl_incrementBin]
          · simp
          · intro s hs
            obtain ⟨i, hi, hsi⟩ := hidx s hs
            exact ⟨i, by rw [List.length_replicate]; exact hi, hsi⟩
        · intro h10
          have hlast : Binary64.binIndex (Binary64.F64.finite (rest.foldl min k))
              (Binary64.F64.finite w) (Binary64.F64.finite (rest.foldl max k)) =
              Binary64.F64.finite (((19 : ℕ) : ℤ) * (Binary64.stepsPerOne : ℤ)) := by
            unfold Binary64.binIndex
            rw [Binary64.lastBin_eq, Binary64.sub_finite, h1,
              Binary64.div_finite_pos _ _ (Int.natCast_nonneg _) hw, Int.natAbs_ofNat, ← hwn,
              Int.natAbs_ofNat]
            apply Binary64.clamp_floor_last
            have hr : 10 ≤ Binary64.roundNat
                (Binary64.roundNat (rest.foldl max k - rest.foldl min k).natAbs 1 *
                  Binary64.stepsPerOne) (20 * Binary64.stepsPerOne) := by
              rw [← hwn] at h10
              exact_mod_cast h10
            have hK := Binary64.roundNat_mul_le _ _ hr
            generalize Binary64.roundNat (rest.foldl max k - rest.foldl min k).natAbs 1 = dn
              at hK hr ⊢
            generalize Binary64.roundNat (dn * Binary64.stepsPerOne)
              (20 * Binary64.stepsPerOne) = wn at hK hr ⊢
            have hle : 19 * Binary64.stepsPerOne * wn ≤ dn * Binary64.stepsPerOne := by
              have e1 : 19 * (wn * (20 * Binary64.stepsPerOne)) =
                  20 * (19 * Binary64.stepsPerOne * wn) := by ring
              rw [e1] at hK
              exact Nat.le_of_mul_le_mul_left hK (by norm_num)
            have hge := Binary64.le_roundNat_last _ _ (by omega : 0 < wn) hle
            rcases Binary64.ofRatio_false_cases (dn * Binary64.stepsPerOne) wn with h3 | h3
            · left; exact h3
            · right
              exact ⟨_, by exact_mod_cast hge, h3⟩
          refine ⟨hlast, ?_⟩
          rw [hgetD 19 (by norm_num)]
          exact List.countP_pos_iff.mpr ⟨_, hhi, by simpa using hlast⟩

/-- C13 (amended), at a concrete input: for the samples 0, 33 and 44 the `binWidth` is
2.2, the samples are counted in bins 0, 14 (`33 / 2.2` is 14.999999999999998) and 19. -/
theorem histogram_counts_binary64_witness :
    Binary64.histogramBins [Binary64.ofNat 0, Binary64.ofNat 33, Binary64.ofNat 44] =
      [1, 0, 0, 0, 0, 0, 0, 0, 0, 0, 0, 0, 0, 0, 1, 0, 0, 0, 0, 1] ∧
    Binary64.ofRat 2.2 = Binary64.F64.finite (4953959590107546 * 2 ^ 1023) ∧
    (10 : ℤ) ≤ 4953959590107546 * 2 ^ 1023 ∧
    ∃ lo hi : ℤ,
      [Binary64.ofNat 0, Binary64.ofNat 33, Binary64.ofNat 44].foldl Binary64.mathMin
        Binary64.F64.posInfinity = Binary64.F64.finite lo ∧
      [Binary64.ofNat 0, Binary64.ofNat 33, Binary64.ofNat 44].foldl Binary64.mathMax
        Binary64.F64.negInfinity = Binary64.F64.finite hi ∧
      lo < hi ∧
      Binary64.F64.finite hi ∈ [Binary64.ofNat 0, Binary64.ofNat 33, Binary64.ofNat 44] ∧
      (Binary64.histogramBins
        [Binary64.ofNat 0, Binary64.ofNat 33, Binary64.ofNat 44]).length = 20 ∧
      (Binary64.histogramBins [Binary64.ofNat 0, Binary64.ofNat 33, Binary64.ofNat 44]).sum =
        [Binary64.ofNat 0, Binary64.ofNat 33, Binary64.ofNat 44].length ∧
      (∀ s ∈ [Binary64.ofNat 0, Binary64.ofNat 33, Binary64.ofNat 44], ∃ i : ℕ, i < 20 ∧
        Binary64.binIndex (Binary64.F64.finite lo)
            (Binary64.F64.finite (4953959590107546 * 2 ^ 1023)) s =
          Binary64.F64.finite ((i : ℤ) * (Binary64.stepsPerOne : ℤ))) ∧
      (∀ k : ℕ, k < 20 →
        (Binary64.histogramBins
          [Binary64.ofNat 0, Binary64.ofNat 33, Binary64.ofNat 44]).getD k 0 =
        [Binary64.ofNat 0, Binary64.ofNat 33, Binary64.ofNat 44].countP (fun s => decide
          (Binary64.binIndex (Binary64.F64.finite lo)
              (Binary64.F64.finite (4953959590107546 * 2 ^ 1023)) s =
            Binary64.F64.finite ((k : ℤ) * (Binary64.stepsPerOne : ℤ))))) ∧
      ((10 : ℤ) ≤ 4953959590107546 * 2 ^ 1023 →
        Binary64.binIndex (Binary64.F64.finite lo)
            (Binary64.F64.finite (4953959590107546 * 2 ^ 1023)) (Binary64.F64.finite hi) =
          Binary64.F64.finite (((19 : ℕ) : ℤ) * (Binary64.stepsPerOne : ℤ)) ∧
        1 ≤ (Binary64.histogramBins
          [Binary64.ofNat 0, Binary64.ofNat 33, Binary64.ofNat 44]).getD 19 0) :=
  ⟨by decide!, by decide!, by decide!,
   histogram_counts_binary64 [Binary64.ofNat 0, Binary64.ofNat 33, Binary64.ofNat 44]
     (4953959590107546 * 2 ^ 1023) (by decide!) (by decide!) (by decide!)⟩

end FtcMatch
